import Mathlib

/-!
# go-bayesfactor: a shallow embedding of `bayesfactor.go`

The Go program computes a Bayes factor from a likelihood spec and two prior
specs.  It works on `float64` values and calls two external collaborators: the
density functions of `go-distributions` and its numerical `Integrate`.

* `Flt K` models a `float64` value: the IEEE 754 value classes (NaN, signed
  infinities, signed zeros, non-zero finite numbers), the finite numbers taken
  from an ordered field `K`.  The result of `*`, `/` and `+` on finite numbers
  is the exact result passed through `Rounding.round`.
* Over `K = ℚ` the rounding is that of IEEE 754 binary64 (`Flt.round64`:
  nearest, ties to even, with gradual underflow and overflow to infinity); this
  is the executable model of the program.  Over `K = ℝ` the rounding is the
  identity: the idealised model with exact arithmetic, in which `Integrate` can
  be the exact integral.
* `Lib K` holds the external functions (`Dnorm`, `Dt`, ..., `Integrate`,
  `math.Sqrt`) as parameters.
* A Go `func(float64) float64` value is an `Option (Flt K → Flt K)`: `none` is
  a func whose call panics (the nil func of a zero-valued struct, and a closure
  over one).  A Go call that panics returns `none`.
-/

namespace GoBayesfactor

/-! ## float64 -/

/-- A float64 value, its finite numbers taken from the ordered field `K`. -/
inductive Flt (K : Type) [LinearOrderedField K] where
  | nan : Flt K
  | inf (neg : Bool) : Flt K
  | zero (neg : Bool) : Flt K
  | fin (k : K) (h : k ≠ 0) : Flt K
  deriving DecidableEq

namespace Flt

variable {K : Type} [LinearOrderedField K]

/-- The value `0.0`. -/
def pzero : Flt K := zero false

/-- The value `1`. -/
def one : Flt K := fin 1 one_ne_zero

/-- The value `2.0`. -/
def two : Flt K := fin 2 two_ne_zero

/-- The value `math.Inf(1)`. -/
def pinf : Flt K := inf false

/-- The value `math.Inf(-1)`. -/
def ninf : Flt K := inf true

/-- The float64 of a number of `K` (zero is `+0`). -/
def ofK (k : K) : Flt K := if h : k = 0 then zero false else fin k h

/-- The number a finite float stands for (0 for NaN and the infinities). -/
def toK : Flt K → K
  | fin k _ => k
  | _ => 0

end Flt

/-- How the exact result of an arithmetic operation becomes a float64. -/
class Rounding (K : Type) [LinearOrderedField K] where
  /-- The float64 the number is rounded to. -/
  round : K → Flt K

namespace Flt

variable {K : Type} [LinearOrderedField K]

/-- The sign bit of a float (false for NaN). -/
def sgn : Flt K → Bool
  | nan => false
  | inf n => n
  | zero n => n
  | fin k _ => decide (k < 0)

/-- Float multiplication. -/
def mul [Rounding K] : Flt K → Flt K → Flt K
  | nan, _ => nan
  | _, nan => nan
  | inf _, zero _ => nan
  | zero _, inf _ => nan
  | inf a, y => inf (xor a (sgn y))
  | x, inf b => inf (xor (sgn x) b)
  | zero a, y => zero (xor a (sgn y))
  | x, zero b => zero (xor (sgn x) b)
  | fin a _, fin b _ => Rounding.round (a * b)

/-- Float division. -/
def div [Rounding K] : Flt K → Flt K → Flt K
  | nan, _ => nan
  | _, nan => nan
  | inf _, inf _ => nan
  | zero _, zero _ => nan
  | inf a, y => inf (xor a (sgn y))
  | x, inf b => zero (xor (sgn x) b)
  | zero a, y => zero (xor a (sgn y))
  | x, zero b => inf (xor (sgn x) b)
  | fin a _, fin b _ => Rounding.round (a / b)

/-- Float addition. -/
def add [Rounding K] : Flt K → Flt K → Flt K
  | nan, _ => nan
  | _, nan => nan
  | inf a, inf b => if a = b then inf a else nan
  | inf a, _ => inf a
  | _, inf b => inf b
  | zero a, zero b => zero (a && b)
  | zero _, fin b hb => fin b hb
  | fin a ha, zero _ => fin a ha
  | fin a _, fin b _ => if a + b = 0 then zero false else Rounding.round (a + b)

instance [Rounding K] : Mul (Flt K) := ⟨mul⟩
instance [Rounding K] : Div (Flt K) := ⟨div⟩
instance [Rounding K] : Add (Flt K) := ⟨add⟩

/-- The Go comparison `x == y` on float64 (NaN equals nothing, `-0 == +0`). -/
def eq : Flt K → Flt K → Bool
  | inf a, inf b => a == b
  | zero _, zero _ => true
  | fin a _, fin b _ => decide (a = b)
  | _, _ => false

/-- The Go comparison `x <= y` on float64 (false when either is NaN). -/
def le : Flt K → Flt K → Bool
  | nan, _ => false
  | _, nan => false
  | inf true, _ => true
  | _, inf false => true
  | inf false, _ => false
  | _, inf true => false
  | x, y => decide (toK x ≤ toK y)

/-- The Go comparison `x >= y`. -/
def ge (x y : Flt K) : Bool := le y x

/-- The whole number nearest to `m`, the even one of the two at a tie. -/
def roundEven (m : ℚ) : ℤ :=
  let f := ⌊m⌋
  let r := m - f
  if r < 1 / 2 then f else if 1 / 2 < r then f + 1 else if f % 2 = 0 then f else f + 1

/-- The number of times `n` can be halved before it is below 2, counted in at
most `fuel` steps. -/
def log2Fuel : ℕ → ℕ → ℕ
  | 0, _ => 0
  | fuel + 1, n => if n < 2 then 0 else log2Fuel fuel (n / 2) + 1

/-- The position of the leading binary digit of `n`: the `l` with
`2 ^ l ≤ n < 2 ^ (l + 1)` for `n > 0` (`n` halvings are more than enough). -/
def log2 (n : ℕ) : ℕ := log2Fuel n n

/-- The binary exponent of a positive number `a`: the `e` with
`2 ^ e ≤ a < 2 ^ (e + 1)`. -/
def binExp (a : ℚ) : ℤ :=
  let e0 : ℤ := (log2 a.num.natAbs : ℤ) - (log2 a.den : ℤ)
  if a < 2 ^ e0 then e0 - 1 else e0

/-- The float64 nearest to a rational number (IEEE 754 binary64, round to
nearest, ties to even): 53 significant bits, exponents from -1022 (below it the
spacing stays `2 ^ (-1074)`: subnormal numbers, and a zero with the sign of the
number when it rounds to none), and an infinity when the rounded number reaches
`2 ^ 1024`. -/
def round64 (q : ℚ) : Flt ℚ :=
  if q = 0 then zero false else
  let a := |q|
  let e := max (binExp a) (-1022)
  let u : ℚ := 2 ^ (e - 52)
  let v : ℚ := (roundEven (a / u) : ℚ) * u
  if v = 0 then zero (decide (q < 0))
  else if 2 ^ (1024 : ℤ) ≤ v then inf (decide (q < 0))
  else if q < 0 then ofK (-v) else ofK v

end Flt

/-- Over the rationals the arithmetic rounds as float64 does. -/
instance : Rounding ℚ := ⟨Flt.round64⟩

/-- Over the reals the arithmetic is exact. -/
noncomputable instance : Rounding ℝ := ⟨Flt.ofK⟩

/-! ## Types of the program -/

variable {K : Type} [LinearOrderedField K]

/-- The external collaborators: the densities and the integrator of
`go-distributions`, and `math.Sqrt`.  They are parameters of the embedding. -/
structure Lib (K : Type) [LinearOrderedField K] where
  Dnorm : Flt K → Flt K → Flt K → Flt K
  Scaled_shifted_t : Flt K → Flt K → Flt K → Flt K → Flt K
  Dt : Flt K → Flt K → Flt K → Flt K
  Dbinom : Flt K → Flt K → Flt K → Flt K
  Dbeta : Flt K → Flt K → Flt K → Flt K
  Dcauchy : Flt K → Flt K → Flt K → Flt K
  Dunif : Flt K → Flt K → Flt K → Flt K
  Integrate : (Flt K → Flt K) → Flt K → Flt K → Flt K
  Sqrt : Flt K → Flt K

/-- A Go value of type `func(x float64) float64`; `none` is a func whose call
panics. -/
abbrev Func (K : Type) [LinearOrderedField K] := Option (Flt K → Flt K)

/-- A Go value of type `error`; `none` is `nil`. -/
abbrev GoError := Option String

structure LikelihoodDef (K : Type) [LinearOrderedField K] where
  Name : String
  Params : List (Flt K)

structure PriorDef (K : Type) [LinearOrderedField K] where
  Name : String
  Params : List (Flt K)

structure Predictive (K : Type) [LinearOrderedField K] where
  function : Func K
  auc : Flt K
  likelihood : Func K
  prior : Func K

structure Prior (K : Type) [LinearOrderedField K] where
  Function : Func K
  name : String
  point : Flt K

structure Likelihood (K : Type) [LinearOrderedField K] where
  function : Func K
  name : String

/-- The zero value of `Prior` (`var alt Prior`). -/
def Prior.zeroValue : Prior K := { Function := none, name := "", point := Flt.pzero }

/-- The zero value of `Likelihood` (`var data Likelihood`). -/
def Likelihood.zeroValue : Likelihood K := { function := none, name := "" }

/-! ## Helper functions -/

variable [Rounding K]

def inrange (x min max : Flt K) : Flt K :=
  if Flt.ge x min && Flt.le x max then Flt.one else Flt.pzero

/-- The closure `mult` returns calls `likelihood(x)` and `prior(x)`: its call
panics when either func is nil. -/
def mult (likelihood prior : Func K) : Func K :=
  match likelihood, prior with
  | some l, some p => some (fun x => l x * p x)
  | _, _ => none

/-- The predictive of a likelihood and a prior.  `Integrate` calls its
integrand, so integrating a func whose call panics is a panic. -/
def pp (E : Lib K) (likelihood : Likelihood K) (prior : Prior K) : Option (Predictive K) :=
  let likelihood_function := likelihood.function
  let prod := mult likelihood_function prior.Function
  if prior.name = "point" then
    match likelihood_function with
    | none => none
    | some f =>
      some { function := prod, auc := f prior.point,
             likelihood := likelihood.function, prior := prior.Function }
  else if likelihood.name = "binomial" then
    match prod with
    | none => none
    | some g =>
      some { function := prod, auc := E.Integrate g Flt.pzero Flt.one,
             likelihood := likelihood.function, prior := prior.Function }
  else
    match prod with
    | none => none
    | some g =>
      some { function := prod, auc := E.Integrate g Flt.ninf Flt.pinf,
             likelihood := likelihood.function, prior := prior.Function }

/-! ## Likelihoods -/

def Normal_likelihood (E : Lib K) (mean sd : Flt K) : Flt K → Flt K :=
  fun x => E.Dnorm x mean sd

def Student_t_likelihood (E : Lib K) (mean sd df : Flt K) : Flt K → Flt K :=
  fun x => E.Scaled_shifted_t x mean sd df

def Noncentral_t_likelihood (E : Lib K) (t df : Flt K) : Flt K → Flt K :=
  fun x => E.Dt t df x

def Noncentral_d_likelihood (E : Lib K) (d df : Flt K) : Flt K → Flt K :=
  fun x => E.Dt (d * E.Sqrt (df + Flt.one)) df (E.Sqrt (df + Flt.one) * x)

def Binomial_likelihood (E : Lib K) (successes trials : Flt K) : Flt K → Flt K :=
  fun x => E.Dbinom successes trials x

/-! ## Priors -/

def Normal_prior (E : Lib K) (mean sd min max : Flt K) : Prior K :=
  if Flt.eq min Flt.ninf && Flt.eq max Flt.pinf then
    { point := Flt.pzero, Function := some (fun x => E.Dnorm x mean sd), name := "normal" }
  else if (Flt.eq min Flt.pzero && Flt.eq max Flt.pinf)
      || (Flt.eq min Flt.ninf && Flt.eq max Flt.pzero) then
    let k : Flt K := Flt.two
    { point := Flt.pzero,
      Function := some (fun x => (E.Dnorm x mean sd * inrange x min max) * k),
      name := "normal" }
  else
    let normal := fun x => E.Dnorm x mean sd * inrange x min max
    let auc := E.Integrate normal Flt.ninf Flt.pinf
    let k := Flt.one / auc
    { point := Flt.pzero,
      Function := some (fun x => (E.Dnorm x mean sd * inrange x min max) * k),
      name := "normal" }

def Student_t_prior (E : Lib K) (mean sd df min max : Flt K) : Prior K :=
  if Flt.eq min Flt.ninf && Flt.eq max Flt.pinf then
    { point := Flt.pzero, Function := some (fun x => E.Scaled_shifted_t x mean sd df),
      name := "student_t" }
  else if (Flt.eq min Flt.pzero && Flt.eq max Flt.pinf)
      || (Flt.eq min Flt.ninf && Flt.eq max Flt.pzero) then
    let k : Flt K := Flt.two
    { point := Flt.pzero,
      Function := some (fun x => (E.Scaled_shifted_t x mean sd df * inrange x min max) * k),
      name := "student_t" }
  else
    let normal := fun x => E.Scaled_shifted_t x mean sd df * inrange x min max
    let auc := E.Integrate normal Flt.ninf Flt.pinf
    let k := Flt.one / auc
    { point := Flt.pzero,
      Function := some (fun x => (E.Scaled_shifted_t x mean sd df * inrange x min max) * k),
      name := "student_t" }

def Cauchy_prior (E : Lib K) (location scale min max : Flt K) : Prior K :=
  if Flt.eq min Flt.ninf && Flt.eq max Flt.pinf then
    { point := Flt.pzero, Function := some (fun x => E.Dcauchy x location scale),
      name := "cauchy" }
  else if (Flt.eq min Flt.pzero && Flt.eq max Flt.pinf)
      || (Flt.eq min Flt.ninf && Flt.eq max Flt.pzero) then
    let k : Flt K := Flt.two
    { point := Flt.pzero,
      Function := some (fun x => (E.Dcauchy x location scale * inrange x min max) * k),
      name := "cauchy" }
  else
    let cauchy := fun x => E.Dcauchy x location scale * inrange x min max
    let auc := E.Integrate cauchy Flt.ninf Flt.pinf
    let k := Flt.one / auc
    { point := Flt.pzero,
      Function := some (fun x => (E.Dcauchy x location scale * inrange x min max) * k),
      name := "cauchy" }

def Beta_prior (E : Lib K) (alpha beta min max : Flt K) : Prior K :=
  { point := Flt.pzero,
    Function := some (fun x => E.Dbeta x alpha beta * inrange x min max),
    name := "beta" }

def point_prior (point : Flt K) : Prior K :=
  { Function := some (fun x => if Flt.eq x point then Flt.one else Flt.pzero),
    name := "point",
    point := point }

def Uniform_prior (E : Lib K) (alpha beta : Flt K) : Prior K :=
  { point := Flt.pzero,
    Function := some (fun x => E.Dunif x alpha beta),
    name := "uniform" }

/-! ## Bayesfactor -/

/-- The first switch of `Bayesfactor`: the likelihood `data` built from
`likelihood.Name`.  No case matches an unknown name and `data` keeps its zero
value; `Params[i]` out of range is a panic. -/
def Bayesfactor_data (E : Lib K) (likelihood : LikelihoodDef K) : Option (Likelihood K) :=
  if likelihood.Name = "noncentral_d" then do
    let d ← likelihood.Params[0]?
    let df ← likelihood.Params[1]?
    let fun_ := Noncentral_d_likelihood E d df
    pure { function := some fun_, name := "noncentral_d" }
  else if likelihood.Name = "normal" then do
    let mean ← likelihood.Params[0]?
    let sd ← likelihood.Params[1]?
    let fun_ := Normal_likelihood E mean sd
    pure { function := some fun_, name := "normal" }
  else if likelihood.Name = "binomial" then do
    let successes ← likelihood.Params[0]?
    let trials ← likelihood.Params[1]?
    let fun_ := Binomial_likelihood E successes trials
    pure { function := some fun_, name := "binomial" }
  else if likelihood.Name = "noncentral_t" then do
    let t ← likelihood.Params[0]?
    let df ← likelihood.Params[1]?
    let fun_ := Noncentral_t_likelihood E t df
    pure { function := some fun_, name := "noncentral_t" }
  else if likelihood.Name = "student_t" then do
    let mean ← likelihood.Params[0]?
    let sd ← likelihood.Params[1]?
    let df ← likelihood.Params[2]?
    let fun_ := Student_t_likelihood E mean sd df
    pure { function := some fun_, name := "student_t" }
  else
    pure Likelihood.zeroValue

/-- The second switch of `Bayesfactor`: the prior `null` built from
`nullprior.Name`. -/
def Bayesfactor_null (E : Lib K) (nullprior : PriorDef K) : Option (Prior K) :=
  if nullprior.Name = "cauchy" then do
    let location ← nullprior.Params[0]?
    let scale ← nullprior.Params[1]?
    let min ← nullprior.Params[2]?
    let max ← nullprior.Params[3]?
    pure (Cauchy_prior E location scale min max)
  else if nullprior.Name = "normal" then do
    let mean ← nullprior.Params[0]?
    let sd ← nullprior.Params[1]?
    let min ← nullprior.Params[2]?
    let max ← nullprior.Params[3]?
    pure (Normal_prior E mean sd min max)
  else if nullprior.Name = "beta" then do
    let alpha ← nullprior.Params[0]?
    let beta ← nullprior.Params[1]?
    pure (Beta_prior E alpha beta Flt.pzero Flt.one)
  else if nullprior.Name = "uniform" then do
    let alpha ← nullprior.Params[0]?
    let beta ← nullprior.Params[1]?
    pure (Uniform_prior E alpha beta)
  else if nullprior.Name = "student_t" then do
    let mean ← nullprior.Params[0]?
    let sd ← nullprior.Params[1]?
    let df ← nullprior.Params[2]?
    let min ← nullprior.Params[3]?
    let max ← nullprior.Params[4]?
    pure (Student_t_prior E mean sd df min max)
  else if nullprior.Name = "point" then do
    let point ← nullprior.Params[0]?
    pure (point_prior point)
  else
    pure Prior.zeroValue

/-- The third switch of `Bayesfactor`: the prior `alt` built from
`altprior.Name`.  It has no case for "point". -/
def Bayesfactor_alt (E : Lib K) (altprior : PriorDef K) : Option (Prior K) :=
  if altprior.Name = "cauchy" then do
    let location ← altprior.Params[0]?
    let scale ← altprior.Params[1]?
    let min ← altprior.Params[2]?
    let max ← altprior.Params[3]?
    pure (Cauchy_prior E location scale min max)
  else if altprior.Name = "normal" then do
    let mean ← altprior.Params[0]?
    let sd ← altprior.Params[1]?
    let min ← altprior.Params[2]?
    let max ← altprior.Params[3]?
    pure (Normal_prior E mean sd min max)
  else if altprior.Name = "beta" then do
    let alpha ← altprior.Params[0]?
    let beta ← altprior.Params[1]?
    pure (Beta_prior E alpha beta Flt.pzero Flt.one)
  else if altprior.Name = "uniform" then do
    let alpha ← altprior.Params[0]?
    let beta ← altprior.Params[1]?
    pure (Uniform_prior E alpha beta)
  else if altprior.Name = "student_t" then do
    let mean ← altprior.Params[0]?
    let sd ← altprior.Params[1]?
    let df ← altprior.Params[2]?
    let min ← altprior.Params[3]?
    let max ← altprior.Params[4]?
    pure (Student_t_prior E mean sd df min max)
  else
    pure Prior.zeroValue

/-- The function `Bayesfactor`: the returned pair `(bf, err)`, or `none` when
the call panics. -/
def Bayesfactor (E : Lib K) (likelihood : LikelihoodDef K) (altprior nullprior : PriorDef K) :
    Option (Flt K × GoError) := do
  let data ← Bayesfactor_data E likelihood
  let null ← Bayesfactor_null E nullprior
  let alt ← Bayesfactor_alt E altprior
  let alt_model ← pp E data alt
  let nul_model ← pp E data null
  let bf := alt_model.auc / nul_model.auc
  pure (bf, none)

/-! ## Vocabulary of the specification -/

/-- The number of parameters the first switch of `Bayesfactor` reads for a
likelihood family. -/
def likelihoodArity (name : String) : Nat :=
  if name = "student_t" then 3 else 2

/-- The number of parameters the prior switches of `Bayesfactor` read for a
prior family. -/
def priorArity (name : String) : Nat :=
  if name = "student_t" then 5
  else if name = "cauchy" ∨ name = "normal" then 4
  else if name = "beta" ∨ name = "uniform" then 2
  else if name = "point" then 1
  else 0

/-- The likelihood families the first switch has a case for. -/
def likelihoodFamilies : List String :=
  ["noncentral_d", "normal", "binomial", "noncentral_t", "student_t"]

/-- The prior families both prior switches have a case for. -/
def densityPriorFamilies : List String :=
  ["cauchy", "normal", "beta", "uniform", "student_t"]

/-- The prior families the switch of the null prior has a case for. -/
def nullPriorFamilies : List String :=
  "point" :: densityPriorFamilies

/-- The spec of a point prior at `p`. -/
def pointSpec (p : Flt K) : PriorDef K := { Name := "point", Params := [p] }

/-! ## An executable instance of the external library

Over `ℚ` the embedding runs.  `exampleLib` supplies the externals: the uniform
density and the binomial mass function (for whole-number counts) are the real
ones, the other densities are rational stand-ins with the same arguments, the
integrator is a midpoint rule on `[-4, 4]` and the square root is exact on
squares.  Every value is rounded to a float64. -/

namespace Flt

/-- Whether a float is a finite number. -/
def isFin : Flt K → Bool
  | zero _ => true
  | fin _ _ => true
  | _ => false

/-- A function of three numbers as a function of three floats: the rounded
value at finite floats, NaN outside them. -/
def lift3 (g : K → K → K → K) (a b c : Flt K) : Flt K :=
  if isFin a && isFin b && isFin c then Rounding.round (g (toK a) (toK b) (toK c)) else nan

end Flt

/-- The nodes of the midpoint rule: the midpoints of the 32 cells of width 1/4
of `[-4, 4]`. -/
def exampleNodes : List ℚ :=
  (List.range 32).map (fun i => (2 * (i : ℚ) + 1) / 8 - 4)

/-- A midpoint rule: the sum of `f` over the nodes inside `[a, b]`, times the
cell width. -/
def exampleIntegrate (f : Flt ℚ → Flt ℚ) (a b : Flt ℚ) : Flt ℚ :=
  exampleNodes.foldl
    (fun acc n =>
      if Flt.le a (Flt.ofK n) && Flt.le (Flt.ofK n) b
      then acc + f (Flt.ofK n) * Flt.ofK (1 / 4) else acc)
    Flt.pzero

/-- A rational bell-shaped kernel with location `m` and scale `s`. -/
def exampleKernel (x m s : ℚ) : ℚ := 1 / (s * (1 + ((x - m) / s) ^ 2))

/-- The square root of a float, from a square root of positive numbers. -/
def liftSqrt {K : Type} [LinearOrderedField K] [Rounding K] (sqrt : K → K) : Flt K → Flt K
  | Flt.nan => Flt.nan
  | Flt.inf neg => if neg then Flt.nan else Flt.inf false
  | Flt.zero neg => Flt.zero neg
  | Flt.fin k _ => if 0 < k then Rounding.round (sqrt k) else Flt.nan

def exampleLib : Lib ℚ where
  Dnorm := Flt.lift3 exampleKernel
  Scaled_shifted_t x mean sd _ := Flt.lift3 exampleKernel x mean sd
  Dt := Flt.lift3 (fun t df ncp => 1 / (1 + (t - ncp) ^ 2 + t ^ 2 / (df + 1)))
  Dbinom := Flt.lift3 (fun k n p =>
    (Nat.choose ⌊n⌋₊ ⌊k⌋₊ : ℚ) * p ^ ⌊k⌋₊ * (1 - p) ^ (⌊n⌋₊ - ⌊k⌋₊))
  Dbeta := Flt.lift3 (fun x a b => x ^ (⌊a⌋₊ - 1) * (1 - x) ^ (⌊b⌋₊ - 1))
  Dcauchy := Flt.lift3 exampleKernel
  Dunif := Flt.lift3 (fun x a b => if a ≤ x ∧ x ≤ b then 1 / (b - a) else 0)
  Integrate := exampleIntegrate
  Sqrt := liftSqrt Rat.sqrt

/-! ## The exact integrator

Over `ℝ` the integrator can be the exact integral.  `exactIntegrate f a b` is
the Lebesgue integral over the reals `x` with `a <= x <= b` (Go's comparison)
of the number `f(x)` stands for.  It is meant for integrable integrands with
finite values: a NaN or infinite value counts as 0, and so does the integral of
a function that is not integrable. -/

namespace Flt

/-- The reals `x` with `a <= x` and `x <= b`. -/
def between (a b : Flt ℝ) : Set ℝ :=
  {x | le a (ofK x) = true ∧ le (ofK x) b = true}

end Flt

/-- The integrator as the exact integral of `f` over `[a, b]`. -/
noncomputable def exactIntegrate (f : Flt ℝ → Flt ℝ) (a b : Flt ℝ) : Flt ℝ :=
  Flt.ofK (∫ x in Flt.between a b, Flt.toK (f (Flt.ofK x)))

/-! ## The external library over the reals

`exactLib` supplies the externals over `ℝ`: the densities are the real
functions the library computes in floating point, the integrator is the exact
integral and the square root is the real square root. -/

namespace Flt

variable {K : Type} [LinearOrderedField K] [Rounding K]

/-- A function of four numbers as a function of four floats: the rounded
value at finite floats, NaN outside them. -/
def lift4 (g : K → K → K → K → K) (a b c d : Flt K) : Flt K :=
  if isFin a && isFin b && isFin c && isFin d
  then Rounding.round (g (toK a) (toK b) (toK c) (toK d)) else nan

end Flt

/-- The density at `x` of the normal distribution with mean `mean` and standard
deviation `sd`. -/
noncomputable def normalPDF (x mean sd : ℝ) : ℝ :=
  ProbabilityTheory.gaussianPDFReal mean (Real.toNNReal (sd ^ 2)) x

/-- The density at `x` of the Student t distribution with `df` degrees of
freedom, shifted by `mean` and scaled by `sd`. -/
noncomputable def studentPDF (x mean sd df : ℝ) : ℝ :=
  Real.Gamma ((df + 1) / 2) / (Real.sqrt (df * Real.pi) * Real.Gamma (df / 2)) *
    (1 + ((x - mean) / sd) ^ 2 / df) ^ (-(df + 1) / 2) / sd

/-- The density at the statistic `t` of the noncentral t distribution with `df`
degrees of freedom and noncentrality `ncp`. -/
noncomputable def noncentralTPDF (t df ncp : ℝ) : ℝ :=
  df ^ (df / 2) * Real.exp (-(df * ncp ^ 2) / (2 * (t ^ 2 + df))) /
    (Real.sqrt Real.pi * Real.Gamma (df / 2) * 2 ^ ((df - 1) / 2) *
      (t ^ 2 + df) ^ ((df + 1) / 2)) *
    ∫ y in Set.Ioi (0 : ℝ), y ^ df * Real.exp (-(y - ncp * t / Real.sqrt (t ^ 2 + df)) ^ 2 / 2)

/-- The probability of `k` successes in `n` trials with success probability
`p`. -/
noncomputable def binomialPMF (k n p : ℝ) : ℝ :=
  (Nat.choose ⌊n⌋₊ ⌊k⌋₊ : ℝ) * p ^ ⌊k⌋₊ * (1 - p) ^ (⌊n⌋₊ - ⌊k⌋₊)

/-- The density at `x` of the beta distribution with shapes `a` and `b`. -/
noncomputable def betaPDF (x a b : ℝ) : ℝ :=
  if 0 ≤ x ∧ x ≤ 1 then
    x ^ (a - 1) * (1 - x) ^ (b - 1) * Real.Gamma (a + b) / (Real.Gamma a * Real.Gamma b)
  else 0

/-- The density at `x` of the Cauchy distribution with the given location and
scale. -/
noncomputable def cauchyPDF (x location scale : ℝ) : ℝ :=
  1 / (Real.pi * scale * (1 + ((x - location) / scale) ^ 2))

/-- The density at `x` of the uniform distribution on `[a, b]`. -/
noncomputable def uniformPDF (x a b : ℝ) : ℝ :=
  if a ≤ x ∧ x ≤ b then 1 / (b - a) else 0

noncomputable def exactLib : Lib ℝ where
  Dnorm := Flt.lift3 normalPDF
  Scaled_shifted_t := Flt.lift4 studentPDF
  Dt := Flt.lift3 noncentralTPDF
  Dbinom := Flt.lift3 binomialPMF
  Dbeta := Flt.lift3 betaPDF
  Dcauchy := Flt.lift3 cauchyPDF
  Dunif := Flt.lift3 uniformPDF
  Integrate := exactIntegrate
  Sqrt := liftSqrt Real.sqrt

/-! ## Lemmas on the builders -/

theorem getElem?_of_lt {α : Type} (xs : List α) (i : Nat) (h : i < xs.length) :
    ∃ a, xs[i]? = some a := ⟨xs[i], List.getElem?_eq_getElem h⟩

theorem Normal_prior_shape (E : Lib K) (mean sd min max : Flt K) :
    ∃ g, Normal_prior E mean sd min max = ⟨some g, "normal", Flt.pzero⟩ := by
  unfold Normal_prior
  split_ifs <;> exact ⟨_, rfl⟩

theorem Student_t_prior_shape (E : Lib K) (mean sd df min max : Flt K) :
    ∃ g, Student_t_prior E mean sd df min max = ⟨some g, "student_t", Flt.pzero⟩ := by
  unfold Student_t_prior
  split_ifs <;> exact ⟨_, rfl⟩

theorem Cauchy_prior_shape (E : Lib K) (location scale min max : Flt K) :
    ∃ g, Cauchy_prior E location scale min max = ⟨some g, "cauchy", Flt.pzero⟩ := by
  unfold Cauchy_prior
  split_ifs <;> exact ⟨_, rfl⟩

theorem Bayesfactor_data_shape (E : Lib K) (L : LikelihoodDef K)
    (hL : L.Name ∈ likelihoodFamilies) (hn : likelihoodArity L.Name ≤ L.Params.length) :
    ∃ f, Bayesfactor_data E L = some ⟨some f, L.Name⟩ := by
  obtain ⟨name, params⟩ := L
  simp only [likelihoodFamilies, List.mem_cons, List.mem_singleton, List.not_mem_nil, or_false] at hL
  rcases hL with h | h | h | h | h <;> subst h <;>
    simp only [likelihoodArity] at hn <;>
    simp only [reduceIte, String.reduceEq] at hn
  all_goals
    obtain ⟨a, ha⟩ := getElem?_of_lt params 0 (by omega)
    obtain ⟨b, hb⟩ := getElem?_of_lt params 1 (by omega)
  · exact ⟨Noncentral_d_likelihood E a b, by simp [Bayesfactor_data, ha, hb]⟩
  · exact ⟨Normal_likelihood E a b, by simp [Bayesfactor_data, ha, hb]⟩
  · exact ⟨Binomial_likelihood E a b, by simp [Bayesfactor_data, ha, hb]⟩
  · exact ⟨Noncentral_t_likelihood E a b, by simp [Bayesfactor_data, ha, hb]⟩
  · obtain ⟨c, hc⟩ := getElem?_of_lt params 2 (by omega)
    exact ⟨Student_t_likelihood E a b c, by simp [Bayesfactor_data, ha, hb, hc]⟩

theorem Bayesfactor_alt_shape (E : Lib K) (A : PriorDef K)
    (hA : A.Name ∈ densityPriorFamilies) (hn : priorArity A.Name ≤ A.Params.length) :
    ∃ g, Bayesfactor_alt E A = some ⟨some g, A.Name, Flt.pzero⟩ := by
  obtain ⟨name, params⟩ := A
  simp only [densityPriorFamilies, List.mem_cons, List.mem_singleton, List.not_mem_nil,
    or_false] at hA
  rcases hA with h | h | h | h | h <;> subst h <;>
    simp only [priorArity] at hn <;>
    simp only [reduceIte, String.reduceEq, or_false, or_true, false_or, true_or] at hn
  all_goals
    obtain ⟨a, ha⟩ := getElem?_of_lt params 0 (by omega)
    obtain ⟨b, hb⟩ := getElem?_of_lt params 1 (by omega)
  · obtain ⟨c, hc⟩ := getElem?_of_lt params 2 (by omega)
    obtain ⟨d, hd⟩ := getElem?_of_lt params 3 (by omega)
    obtain ⟨g, hg⟩ := Cauchy_prior_shape E a b c d
    exact ⟨g, by simp [Bayesfactor_alt, ha, hb, hc, hd, hg]⟩
  · obtain ⟨c, hc⟩ := getElem?_of_lt params 2 (by omega)
    obtain ⟨d, hd⟩ := getElem?_of_lt params 3 (by omega)
    obtain ⟨g, hg⟩ := Normal_prior_shape E a b c d
    exact ⟨g, by simp [Bayesfactor_alt, ha, hb, hc, hd, hg]⟩
  · exact ⟨_, by simp [Bayesfactor_alt, ha, hb, Beta_prior]; rfl⟩
  · exact ⟨_, by simp [Bayesfactor_alt, ha, hb, Uniform_prior]; rfl⟩
  · obtain ⟨c, hc⟩ := getElem?_of_lt params 2 (by omega)
    obtain ⟨d, hd⟩ := getElem?_of_lt params 3 (by omega)
    obtain ⟨e, he⟩ := getElem?_of_lt params 4 (by omega)
    obtain ⟨g, hg⟩ := Student_t_prior_shape E a b c d e
    exact ⟨g, by simp [Bayesfactor_alt, ha, hb, hc, hd, he, hg]⟩

/-- On the families both prior switches have a case for, the two switches are
the same function of the spec. -/
theorem Bayesfactor_null_eq_alt (E : Lib K) (A : PriorDef K)
    (hA : A.Name ∈ densityPriorFamilies) :
    Bayesfactor_null E A = Bayesfactor_alt E A := by
  obtain ⟨name, params⟩ := A
  simp only [densityPriorFamilies, List.mem_cons, List.mem_singleton, List.not_mem_nil,
    or_false] at hA
  rcases hA with h | h | h | h | h <;> subst h <;> simp [Bayesfactor_null, Bayesfactor_alt]

theorem pp_point (E : Lib K) (f : Flt K → Flt K) (name : String) (p : Flt K) :
    pp E ⟨some f, name⟩ (point_prior p) =
      some { function := some (fun x => f x * (if Flt.eq x p then Flt.one else Flt.pzero)),
             auc := f p, likelihood := some f,
             prior := some (fun x => if Flt.eq x p then Flt.one else Flt.pzero) } := by
  simp [pp, point_prior, mult]

theorem pp_density (E : Lib K) (f g : Flt K → Flt K) (lname pname : String) (pt : Flt K)
    (hp : pname ≠ "point") :
    pp E ⟨some f, lname⟩ ⟨some g, pname, pt⟩ =
      some { function := some (fun x => f x * g x),
             auc := if lname = "binomial" then E.Integrate (fun x => f x * g x) Flt.pzero Flt.one
                    else E.Integrate (fun x => f x * g x) Flt.ninf Flt.pinf,
             likelihood := some f, prior := some g } := by
  by_cases hb : lname = "binomial" <;> simp [pp, mult, hp, hb]


theorem Bayesfactor_null_point (E : Lib K) (p : Flt K) :
    Bayesfactor_null E (pointSpec p) = some (point_prior p) := by
  simp [Bayesfactor_null, pointSpec]

theorem Flt.ofK_of_ne {K : Type} [LinearOrderedField K] (k : K) (h : k ≠ 0) :
    Flt.ofK k = Flt.fin k h := by
  unfold Flt.ofK
  rw [dif_neg h]

theorem Flt.fin_congr {K : Type} [LinearOrderedField K] (a b : K) (ha : a ≠ 0) (hb : b ≠ 0)
    (h : a = b) : Flt.fin a ha = Flt.fin b hb := by
  subst h
  rfl

/-- The reciprocal law of float division, when no division rounds. -/
theorem Flt.div_eq_one_div_div (hexact : ∀ k : K, Rounding.round k = Flt.ofK k)
    (a b : Flt K) : a / b = Flt.one / (b / a) := by
  have h10 : ¬ (1 : K) < 0 := not_lt.mpr zero_le_one
  show Flt.div a b = Flt.div Flt.one (Flt.div b a)
  cases a with
  | fin x hx =>
    cases b with
    | fin y hy =>
      have hyx : y / x ≠ 0 := div_ne_zero hy hx
      show Rounding.round (x / y) = Flt.div Flt.one (Rounding.round (y / x))
      rw [hexact, hexact, Flt.ofK_of_ne _ hyx]
      show _ = Rounding.round (1 / (y / x))
      rw [hexact, one_div_div]
    | _ => simp [Flt.div, Flt.one, Flt.sgn, Bool.xor_comm, h10]
  | _ => cases b <;> simp [Flt.div, Flt.one, Flt.sgn, Bool.xor_comm, h10]

theorem pp_nil_likelihood (E : Lib K) (name : String) (prior : Prior K) :
    pp E ⟨none, name⟩ prior = none := by
  unfold pp
  split_ifs <;> simp [mult]

theorem pp_nil_prior (E : Lib K) (likelihood : Likelihood K) (name : String) (pt : Flt K)
    (hp : name ≠ "point") : pp E likelihood ⟨none, name, pt⟩ = none := by
  unfold pp
  rw [if_neg hp]
  split_ifs <;> cases likelihood.function <;> simp [mult]

theorem Bayesfactor_data_unknown (E : Lib K) (L : LikelihoodDef K)
    (hL : L.Name ∉ likelihoodFamilies) : Bayesfactor_data E L = some Likelihood.zeroValue := by
  simp only [likelihoodFamilies, List.mem_cons, List.mem_singleton, List.not_mem_nil,
    or_false, not_or] at hL
  obtain ⟨h1, h2, h3, h4, h5⟩ := hL
  simp [Bayesfactor_data, h1, h2, h3, h4, h5]

theorem Bayesfactor_alt_unknown (E : Lib K) (A : PriorDef K)
    (hA : A.Name ∉ densityPriorFamilies) : Bayesfactor_alt E A = some Prior.zeroValue := by
  simp only [densityPriorFamilies, List.mem_cons, List.mem_singleton, List.not_mem_nil,
    or_false, not_or] at hA
  obtain ⟨h1, h2, h3, h4, h5⟩ := hA
  simp [Bayesfactor_alt, h1, h2, h3, h4, h5]

theorem Bayesfactor_null_unknown (E : Lib K) (N : PriorDef K)
    (hN : N.Name ∉ nullPriorFamilies) : Bayesfactor_null E N = some Prior.zeroValue := by
  simp only [nullPriorFamilies, densityPriorFamilies, List.mem_cons, List.mem_singleton,
    List.not_mem_nil, or_false, not_or] at hN
  obtain ⟨h0, h1, h2, h3, h4, h5⟩ := hN
  simp [Bayesfactor_null, h0, h1, h2, h3, h4, h5]

/-- What a returning call of `Bayesfactor` has computed. -/
theorem Bayesfactor_eq_some (E : Lib K) (L : LikelihoodDef K) (A N : PriorDef K)
    (r : Flt K × GoError) (h : Bayesfactor E L A N = some r) :
    ∃ data null alt am nm, Bayesfactor_data E L = some data ∧ Bayesfactor_null E N = some null ∧
      Bayesfactor_alt E A = some alt ∧ pp E data alt = some am ∧ pp E data null = some nm ∧
      r = (am.auc / nm.auc, none) := by
  unfold Bayesfactor at h
  cases hd : Bayesfactor_data E L with
  | none => simp [hd] at h
  | some data =>
    cases hn : Bayesfactor_null E N with
    | none => simp [hd, hn] at h
    | some null =>
      cases ha : Bayesfactor_alt E A with
      | none => simp [hd, hn, ha] at h
      | some alt =>
        cases ham : pp E data alt with
        | none => simp [hd, hn, ha, ham] at h
        | some am =>
          cases hnm : pp E data null with
          | none => simp [hd, hn, ha, ham, hnm] at h
          | some nm =>
            simp [hd, hn, ha, ham, hnm] at h
            exact ⟨data, null, alt, am, nm, rfl, rfl, rfl, ham, hnm, h.symm⟩

theorem Bayesfactor_none_of_likelihood (E : Lib K) (L : LikelihoodDef K) (A N : PriorDef K)
    (hL : L.Name ∉ likelihoodFamilies) : Bayesfactor E L A N = none := by
  cases h : Bayesfactor E L A N with
  | none => rfl
  | some r =>
    obtain ⟨data, null, alt, am, nm, hd, -, -, ham, -, -⟩ := Bayesfactor_eq_some E L A N r h
    rw [Bayesfactor_data_unknown E L hL] at hd
    cases hd
    rw [Likelihood.zeroValue, pp_nil_likelihood] at ham
    cases ham

theorem Bayesfactor_none_of_alt (E : Lib K) (L : LikelihoodDef K) (A N : PriorDef K)
    (hA : A.Name ∉ densityPriorFamilies) : Bayesfactor E L A N = none := by
  cases h : Bayesfactor E L A N with
  | none => rfl
  | some r =>
    obtain ⟨data, null, alt, am, nm, -, -, ha, ham, -, -⟩ := Bayesfactor_eq_some E L A N r h
    rw [Bayesfactor_alt_unknown E A hA] at ha
    cases ha
    rw [Prior.zeroValue, pp_nil_prior E data "" _ (by decide)] at ham
    cases ham

theorem Bayesfactor_none_of_null (E : Lib K) (L : LikelihoodDef K) (A N : PriorDef K)
    (hN : N.Name ∉ nullPriorFamilies) : Bayesfactor E L A N = none := by
  cases h : Bayesfactor E L A N with
  | none => rfl
  | some r =>
    obtain ⟨data, null, alt, am, nm, -, hn, -, -, hnm, -⟩ := Bayesfactor_eq_some E L A N r h
    rw [Bayesfactor_null_unknown E N hN] at hn
    cases hn
    rw [Prior.zeroValue, pp_nil_prior E data "" _ (by decide)] at hnm
    cases hnm

theorem densityPriorFamilies_ne_point (name : String) (h : name ∈ densityPriorFamilies) :
    name ≠ "point" := by
  rintro rfl
  revert h
  decide

/-! ## Lemmas on floats and the exact integral -/

open MeasureTheory Set

namespace Flt

variable {K : Type} [LinearOrderedField K]

theorem toK_ofK (x : K) : toK (ofK x) = x := by
  unfold ofK
  split_ifs with h <;> simp [toK, h]

theorem toK_one : toK (one : Flt K) = 1 := rfl

theorem toK_two : toK (two : Flt K) = 2 := rfl

theorem ninf_le_ofK (x : K) : le ninf (ofK x) = true := by
  unfold ofK ninf
  split_ifs <;> rfl

theorem ofK_le_pinf (x : K) : le (ofK x) pinf = true := by
  unfold ofK pinf
  split_ifs <;> rfl

theorem between_ninf_pinf : between ninf pinf = univ := by
  ext x
  simp [between, ninf_le_ofK, ofK_le_pinf]

end Flt

namespace Flt

theorem round_real (k : ℝ) : Rounding.round k = ofK k := rfl

theorem toK_mul (a b : Flt ℝ) : toK (a * b) = toK a * toK b := by
  show toK (mul a b) = _
  cases a with
  | fin x hx =>
    cases b with
    | fin y hy =>
      show toK (Rounding.round (x * y)) = _
      rw [round_real, toK_ofK]
      rfl
    | _ => simp [mul, toK]
  | _ => cases b <;> simp [mul, toK]

theorem zero_le_ofK (n : Bool) (x : ℝ) : le (zero n) (ofK x) = decide (0 ≤ x) := by
  unfold ofK
  split_ifs with hx <;> simp [le, toK, hx]

theorem ofK_le_zero (n : Bool) (x : ℝ) : le (ofK x) (zero n) = decide (x ≤ 0) := by
  unfold ofK
  split_ifs with hx <;> simp [le, toK, hx]

theorem between_zero_pinf (n : Bool) : between (zero n) pinf = Ici 0 := by
  ext x
  simp [between, zero_le_ofK, ofK_le_pinf]

theorem between_ninf_zero (n : Bool) : between ninf (zero n) = Iic 0 := by
  ext x
  simp [between, ofK_le_zero, ninf_le_ofK]

theorem fin_le_ofK (k : ℝ) (hk : k ≠ 0) (x : ℝ) : le (fin k hk) (ofK x) = decide (k ≤ x) := by
  unfold ofK
  split_ifs with hx <;> simp [le, toK, hx]

theorem ofK_le_fin (k : ℝ) (hk : k ≠ 0) (x : ℝ) : le (ofK x) (fin k hk) = decide (x ≤ k) := by
  unfold ofK
  split_ifs with hx <;> simp [le, toK, hx]

theorem pinf_le_ofK (x : ℝ) : le pinf (ofK x) = false := by
  unfold ofK pinf
  split_ifs <;> rfl

theorem ofK_le_ninf (x : ℝ) : le (ofK x) ninf = false := by
  unfold ofK ninf
  split_ifs <;> rfl

theorem nan_le (a : Flt ℝ) : le nan a = false := by
  cases a with
  | inf n => cases n <;> rfl
  | _ => rfl

theorem le_nan (a : Flt ℝ) : le a nan = false := by
  cases a with
  | inf n => cases n <;> rfl
  | _ => rfl

theorem measurableSet_lower (a : Flt ℝ) : MeasurableSet {x : ℝ | le a (ofK x) = true} := by
  cases a with
  | nan => simp [nan_le]
  | inf n =>
    cases n
    · simp [show (inf false : Flt ℝ) = pinf from rfl, pinf_le_ofK]
    · simp [show (inf true : Flt ℝ) = ninf from rfl, ninf_le_ofK]
  | zero n =>
    simp only [zero_le_ofK, decide_eq_true_eq]
    exact measurableSet_Ici
  | fin k hk =>
    simp only [fin_le_ofK, decide_eq_true_eq]
    exact measurableSet_Ici

theorem measurableSet_upper (b : Flt ℝ) : MeasurableSet {x : ℝ | le (ofK x) b = true} := by
  cases b with
  | nan => simp [le_nan]
  | inf n =>
    cases n
    · simp [show (inf false : Flt ℝ) = pinf from rfl, ofK_le_pinf]
    · simp [show (inf true : Flt ℝ) = ninf from rfl, ofK_le_ninf]
  | zero n =>
    simp only [ofK_le_zero, decide_eq_true_eq]
    exact measurableSet_Iic
  | fin k hk =>
    simp only [ofK_le_fin, decide_eq_true_eq]
    exact measurableSet_Iic

theorem measurableSet_between (a b : Flt ℝ) : MeasurableSet (between a b) :=
  (measurableSet_lower a).inter (measurableSet_upper b)

end Flt

theorem toK_inrange (x : ℝ) (min max : Flt ℝ) :
    Flt.toK (inrange (Flt.ofK x) min max) =
      (Flt.between min max).indicator (fun _ => (1 : ℝ)) x := by
  unfold inrange Flt.ge
  by_cases h : x ∈ Flt.between min max
  · rw [Set.indicator_of_mem h]
    obtain ⟨h1, h2⟩ := h
    simp [h1, h2, Flt.toK_one]
  · rw [Set.indicator_of_not_mem h]
    have : ¬ (Flt.le min (Flt.ofK x) = true ∧ Flt.le (Flt.ofK x) max = true) := h
    simp only [Bool.and_eq_true]
    rw [if_neg this]
    rfl

/-- The integral over `S` of a density masked to `T ⊆ S` and scaled by `c`. -/
theorem integral_masked (φ : ℝ → ℝ) (S T : Set ℝ) (hT : MeasurableSet T) (hTS : T ⊆ S)
    (c : ℝ) :
    (∫ x in S, φ x * T.indicator (fun _ => (1 : ℝ)) x * c) = (∫ x in T, φ x) * c := by
  have h : (fun x => φ x * T.indicator (fun _ => (1 : ℝ)) x * c) =
      T.indicator (fun x => φ x * c) := by
    funext x
    by_cases hx : x ∈ T <;> simp [hx]
  rw [h, setIntegral_indicator hT, Set.inter_eq_self_of_subset_right hTS, integral_mul_right]

/-- A density symmetric about 0 has half its mass on each side of 0. -/
theorem half_mass (φ : ℝ → ℝ) (hint : Integrable φ) (hone : ∫ x, φ x = 1)
    (hsymm : ∀ x, φ (-x) = φ x) :
    (∫ x in Ici 0, φ x) = 1 / 2 ∧ (∫ x in Iic 0, φ x) = 1 / 2 := by
  have h1 : (∫ x in Iic 0, φ x) = ∫ x in Ioi 0, φ x := by
    have := integral_comp_neg_Iic (0 : ℝ) φ
    simpa [hsymm] using this
  have h2 : (∫ x in Iic 0, φ x) + ∫ x in Ioi 0, φ x = 1 := by
    have := integral_add_compl (measurableSet_Iic (a := (0 : ℝ))) hint
    rw [compl_Iic, hone] at this
    exact this
  rw [integral_Ici_eq_integral_Ioi]
  constructor <;> linarith

theorem Flt.one_div_half : Flt.one / Flt.ofK (1 / 2 : ℝ) = Flt.two := by
  rw [Flt.ofK_of_ne (1 / 2 : ℝ) (by norm_num)]
  show Rounding.round ((1 : ℝ) / (1 / 2)) = _
  rw [Flt.round_real, Flt.ofK_of_ne _ (by norm_num)]
  exact Flt.fin_congr _ _ _ _ (by norm_num)

theorem Flt.ofK_one : Flt.ofK (1 : ℝ) = Flt.one :=
  Flt.ofK_of_ne 1 one_ne_zero

/-- The two shapes of a half-line through zero, as `Bayesfactor` tests them. -/
theorem half_line_cases (min max : Flt ℝ)
    (hhalf : ((Flt.eq min Flt.pzero && Flt.eq max Flt.pinf)
      || (Flt.eq min Flt.ninf && Flt.eq max Flt.pzero)) = true) :
    (∃ n, min = Flt.zero n ∧ max = Flt.pinf) ∨ (min = Flt.ninf ∧ ∃ n, max = Flt.zero n) := by
  cases min with
  | nan => simp [Flt.eq] at hhalf
  | fin k hk => simp [Flt.eq, Flt.pzero, Flt.ninf] at hhalf
  | zero n =>
    cases max with
    | inf m =>
      cases m
      · exact Or.inl ⟨n, rfl, rfl⟩
      · simp [Flt.eq, Flt.pzero, Flt.ninf, Flt.pinf] at hhalf
    | _ => simp [Flt.eq, Flt.pzero, Flt.ninf, Flt.pinf] at hhalf
  | inf m =>
    cases m
    · simp [Flt.eq, Flt.pzero, Flt.ninf, Flt.pinf] at hhalf
    · cases max with
      | zero n => exact Or.inr ⟨rfl, n, rfl⟩
      | _ => simp [Flt.eq, Flt.pzero, Flt.ninf, Flt.pinf] at hhalf

theorem half_line_not_full (min max : Flt ℝ)
    (hhalf : ((Flt.eq min Flt.pzero && Flt.eq max Flt.pinf)
      || (Flt.eq min Flt.ninf && Flt.eq max Flt.pzero)) = true) :
    (Flt.eq min Flt.ninf && Flt.eq max Flt.pinf) = false := by
  rcases half_line_cases min max hhalf with ⟨n, rfl, rfl⟩ | ⟨rfl, n, rfl⟩ <;> rfl

theorem Normal_prior_half (E : Lib ℝ) (mean sd min max : Flt ℝ)
    (hhalf : ((Flt.eq min Flt.pzero && Flt.eq max Flt.pinf)
      || (Flt.eq min Flt.ninf && Flt.eq max Flt.pzero)) = true) :
    (Normal_prior E mean sd min max).Function =
      some (fun x => (E.Dnorm x mean sd * inrange x min max) * Flt.two) := by
  unfold Normal_prior
  simp [half_line_not_full min max hhalf, hhalf]

theorem Cauchy_prior_half (E : Lib ℝ) (location scale min max : Flt ℝ)
    (hhalf : ((Flt.eq min Flt.pzero && Flt.eq max Flt.pinf)
      || (Flt.eq min Flt.ninf && Flt.eq max Flt.pzero)) = true) :
    (Cauchy_prior E location scale min max).Function =
      some (fun x => (E.Dcauchy x location scale * inrange x min max) * Flt.two) := by
  unfold Cauchy_prior
  simp [half_line_not_full min max hhalf, hhalf]

theorem Student_t_prior_half (E : Lib ℝ) (mean sd df min max : Flt ℝ)
    (hhalf : ((Flt.eq min Flt.pzero && Flt.eq max Flt.pinf)
      || (Flt.eq min Flt.ninf && Flt.eq max Flt.pzero)) = true) :
    (Student_t_prior E mean sd df min max).Function =
      some (fun x => (E.Scaled_shifted_t x mean sd df * inrange x min max) * Flt.two) := by
  unfold Student_t_prior
  simp [half_line_not_full min max hhalf, hhalf]

/-- The exact integral over `[a, b]` of a real-valued density masked to
`[min, max] ⊆ [a, b]` and scaled by `k`. -/
theorem exactIntegrate_masked (dens : Flt ℝ → Flt ℝ) (φ : ℝ → ℝ)
    (hφ : ∀ x : ℝ, dens (Flt.ofK x) = Flt.ofK (φ x)) (min max a b k : Flt ℝ)
    (hsub : Flt.between min max ⊆ Flt.between a b) :
    exactIntegrate (fun x => (dens x * inrange x min max) * k) a b =
      Flt.ofK ((∫ x in Flt.between min max, φ x) * Flt.toK k) := by
  unfold exactIntegrate
  congr 1
  simp only [Flt.toK_mul, hφ, Flt.toK_ofK, toK_inrange]
  exact integral_masked φ _ _ (Flt.measurableSet_between min max) hsub _

theorem exactIntegrate_masked_one (dens : Flt ℝ → Flt ℝ) (φ : ℝ → ℝ)
    (hφ : ∀ x : ℝ, dens (Flt.ofK x) = Flt.ofK (φ x)) (min max a b : Flt ℝ)
    (hsub : Flt.between min max ⊆ Flt.between a b) :
    exactIntegrate (fun x => dens x * inrange x min max) a b =
      Flt.ofK (∫ x in Flt.between min max, φ x) := by
  unfold exactIntegrate
  congr 1
  simp only [Flt.toK_mul, hφ, Flt.toK_ofK, toK_inrange]
  have := integral_masked φ _ _ (Flt.measurableSet_between min max) hsub 1
  simpa using this

theorem half_line_mass (φ : ℝ → ℝ) (hint : Integrable φ) (hone : ∫ x, φ x = 1)
    (hsymm : ∀ x, φ (-x) = φ x) (min max : Flt ℝ)
    (hhalf : ((Flt.eq min Flt.pzero && Flt.eq max Flt.pinf)
      || (Flt.eq min Flt.ninf && Flt.eq max Flt.pzero)) = true) :
    ∫ x in Flt.between min max, φ x = 1 / 2 := by
  rcases half_line_cases min max hhalf with ⟨n, rfl, rfl⟩ | ⟨rfl, n, rfl⟩
  · rw [Flt.between_zero_pinf]
    exact (half_mass φ hint hone hsymm).1
  · rw [Flt.between_ninf_zero]
    exact (half_mass φ hint hone hsymm).2

theorem lift3_ofK (g : ℝ → ℝ → ℝ → ℝ) (x a b : ℝ) :
    Flt.lift3 g (Flt.ofK x) (Flt.ofK a) (Flt.ofK b) = Flt.ofK (g x a b) := by
  have h : ∀ y : ℝ, Flt.isFin (Flt.ofK y) = true := by
    intro y
    unfold Flt.ofK
    split_ifs <;> rfl
  simp [Flt.lift3, h, Flt.toK_ofK, Flt.round_real]

theorem normalPDF_integrable (mean sd : ℝ) : Integrable (fun x => normalPDF x mean sd) :=
  ProbabilityTheory.integrable_gaussianPDFReal _ _

theorem normalPDF_integral (mean sd : ℝ) (hsd : sd ≠ 0) : ∫ x, normalPDF x mean sd = 1 := by
  unfold normalPDF
  apply ProbabilityTheory.integral_gaussianPDFReal_eq_one
  simpa using pow_pos (abs_pos.mpr hsd) 2

theorem normalPDF_symm (sd x : ℝ) : normalPDF (-x) 0 sd = normalPDF x 0 sd := by
  simp [normalPDF, ProbabilityTheory.gaussianPDFReal]

theorem Flt.ofK_zero : Flt.ofK (0 : ℝ) = Flt.pzero := by
  simp [Flt.ofK, Flt.pzero]

theorem Flt.ofK_add_one (a : ℝ) : Flt.ofK a + Flt.one = Flt.ofK (a + 1) := by
  show Flt.add (Flt.ofK a) Flt.one = _
  unfold Flt.ofK Flt.one
  by_cases h : a = 0
  · subst h
    simp [Flt.add]
  · by_cases h1 : a + 1 = 0
    · simp [Flt.add, h, h1]
    · simp [Flt.add, h, h1, Flt.round_real, Flt.ofK]

theorem Flt.ofK_mul_of_pos (c x : ℝ) (hc : 0 < c) :
    Flt.ofK c * Flt.ofK x = Flt.ofK (c * x) := by
  show Flt.mul (Flt.ofK c) (Flt.ofK x) = _
  unfold Flt.ofK
  by_cases h : x = 0
  · subst h
    simp [Flt.mul, hc.ne', Flt.sgn, not_lt.mpr hc.le]
  · simp [Flt.mul, hc.ne', h, Flt.round_real, Flt.ofK]

theorem liftSqrt_ofK (y : ℝ) (hy : 0 < y) :
    liftSqrt Real.sqrt (Flt.ofK y) = Flt.ofK (Real.sqrt y) := by
  rw [Flt.ofK_of_ne y hy.ne']
  simp [liftSqrt, hy, Flt.round_real]

theorem cauchyPDF_scale (c x : ℝ) (hc : 0 < c) :
    cauchyPDF (c * x) 0 c = cauchyPDF x 0 1 / c := by
  unfold cauchyPDF
  have hc0 : c ≠ 0 := hc.ne'
  have h1 : (c * x - 0) / c = x := by field_simp
  rw [h1]
  simp only [sub_zero, div_one, mul_one]
  field_simp
  ring

/-- The change of variables `y = c * x` under the exact integral, for a
likelihood `h` and the Cauchy prior of scale `c`. -/
theorem integral_cauchy_scale (h : ℝ → ℝ) (c : ℝ) (hc : 0 < c) :
    ∫ x, h (c * x) * cauchyPDF x 0 1 = ∫ y, h y * cauchyPDF y 0 c := by
  have h1 := MeasureTheory.Measure.integral_comp_mul_left (fun y => h y * cauchyPDF y 0 c) c
  have h2 : (fun x => h (c * x) * cauchyPDF x 0 1) =
      fun x => c * (h (c * x) * cauchyPDF (c * x) 0 c) := by
    funext x
    rw [cauchyPDF_scale c x hc]
    field_simp
  rw [h2, integral_mul_left, h1, abs_of_pos (inv_pos.mpr hc), smul_eq_mul, ← mul_assoc,
    mul_inv_cancel₀ hc.ne', one_mul]

/-- What `Bayesfactor` returns for a built likelihood, a built alternative
prior that is not a point prior, and a point null prior. -/
theorem Bayesfactor_point_null {K : Type} [LinearOrderedField K] [Rounding K] (E : Lib K)
    (L : LikelihoodDef K) (A : PriorDef K) (p : Flt K) (f g : Flt K → Flt K)
    (lname pname : String) (pt : Flt K)
    (hL : Bayesfactor_data E L = some ⟨some f, lname⟩)
    (hA : Bayesfactor_alt E A = some ⟨some g, pname, pt⟩) (hp : pname ≠ "point") :
    Bayesfactor E L A (pointSpec p) =
      some ((if lname = "binomial" then E.Integrate (fun x => f x * g x) Flt.pzero Flt.one
             else E.Integrate (fun x => f x * g x) Flt.ninf Flt.pinf) / f p, none) := by
  simp [Bayesfactor, hL, hA, Bayesfactor_null_point, pp_point, pp_density E f g _ _ _ hp]

/-- The mass of the normal density with mean 1 and standard deviation 1 on
`[0, +Inf)` is more than one half. -/
theorem normalPDF_one_mass : 1 / 2 < ∫ x in Ici (0 : ℝ), normalPDF x 1 1 := by
  have hshift : ∀ x, normalPDF x 1 1 = normalPDF (x - 1) 0 1 := by
    intro x
    unfold normalPDF
    rw [ProbabilityTheory.gaussianPDFReal_sub, zero_add]
  have hint : Integrable (fun x => normalPDF x 1 1) := normalPDF_integrable 1 1
  have hupper : ∫ x in Ici (1 : ℝ), normalPDF x 1 1 = 1 / 2 := by
    have h0 := (half_mass (fun x => normalPDF x 0 1) (normalPDF_integrable 0 1)
      (normalPDF_integral 0 1 one_ne_zero) (normalPDF_symm 1)).1
    rw [← integral_indicator measurableSet_Ici] at h0 ⊢
    rw [← h0, ← integral_sub_right_eq_self
      (fun x => (Ici (0 : ℝ)).indicator (fun x => normalPDF x 0 1) x) (1 : ℝ)]
    congr 1
    funext x
    by_cases hx : 1 ≤ x
    · have hx0 : (0 : ℝ) ≤ x - 1 := by linarith
      simp [Set.indicator, hx, hx0, hshift x]
    · have hx0 : ¬ (0 : ℝ) ≤ x - 1 := by
        intro h
        exact hx (by linarith)
      simp [Set.indicator, hx, hx0]
  have hpos : 0 < ∫ x in Ico (0 : ℝ) 1, normalPDF x 1 1 := by
    rw [setIntegral_pos_iff_support_of_nonneg_ae]
    · have hsupp : Function.support (fun x => normalPDF x 1 1) = univ := by
        ext x
        simp only [Function.mem_support, mem_univ, iff_true]
        exact (ProbabilityTheory.gaussianPDFReal_pos _ _ _ (by simp)).ne'
      rw [hsupp, univ_inter, Real.volume_Ico]
      simp
    · exact Filter.Eventually.of_forall
        (fun x => ProbabilityTheory.gaussianPDFReal_nonneg _ _ _)
    · exact hint.integrableOn
  have hsplit : ∫ x in Ici (0 : ℝ), normalPDF x 1 1 =
      (∫ x in Ico (0 : ℝ) 1, normalPDF x 1 1) + ∫ x in Ici (1 : ℝ), normalPDF x 1 1 := by
    rw [← Ico_union_Ici_eq_Ici (zero_le_one : (0 : ℝ) ≤ 1)]
    refine setIntegral_union ?_ measurableSet_Ici hint.integrableOn hint.integrableOn
    rw [Set.disjoint_left]
    intro x hx hx1
    exact absurd hx.2 (not_lt.mpr hx1)
  rw [hsplit, hupper]
  linarith

theorem Flt.one_div_ofK (m : ℝ) (hm : m ≠ 0) : Flt.one / Flt.ofK m = Flt.ofK (1 / m) := by
  rw [Flt.ofK_of_ne m hm]
  rfl

/-- The normal density has positive mass on every set of positive length. -/
theorem normalPDF_mass_pos (mean sd : ℝ) (hsd : sd ≠ 0) (s : Set ℝ) (hs : 0 < volume s) :
    0 < ∫ x in s, normalPDF x mean sd := by
  have hv : Real.toNNReal (sd ^ 2) ≠ 0 := by
    simpa using pow_pos (abs_pos.mpr hsd) 2
  rw [setIntegral_pos_iff_support_of_nonneg_ae]
  · have hsupp : Function.support (fun x => normalPDF x mean sd) = univ := by
      ext x
      simp only [Function.mem_support, mem_univ, iff_true]
      exact (ProbabilityTheory.gaussianPDFReal_pos _ _ _ hv).ne'
    rw [hsupp, univ_inter]
    exact hs
  · exact Filter.Eventually.of_forall
      (fun x => ProbabilityTheory.gaussianPDFReal_nonneg _ _ _)
  · exact (normalPDF_integrable mean sd).integrableOn

theorem Flt.between_zero_one : Flt.between (Flt.pzero : Flt ℝ) Flt.one = Icc 0 1 := by
  ext x
  simp [Flt.between, Flt.pzero, Flt.one, Flt.zero_le_ofK, Flt.ofK_le_fin]

theorem Flt.ofK_injective (a b : ℝ) (h : Flt.ofK a = Flt.ofK b) : a = b := by
  have := congrArg Flt.toK h
  rwa [Flt.toK_ofK, Flt.toK_ofK] at this

/-- The integral in the noncentral t density at a zero shift is positive. -/
theorem noncentral_integral_pos (df : ℝ) (hdf : -1 < df) :
    0 < ∫ y in Ioi (0 : ℝ), y ^ df * Real.exp (-(y - 0) ^ 2 / 2) := by
  have hfun : (fun y : ℝ => y ^ df * Real.exp (-(y - 0) ^ 2 / 2)) =
      fun y : ℝ => y ^ df * Real.exp (-(1 / 2) * y ^ 2) := by
    funext y
    congr 2
    ring
  rw [hfun]
  have hint := integrableOn_rpow_mul_exp_neg_mul_sq (b := 1 / 2) (by norm_num) hdf
  rw [setIntegral_pos_iff_support_of_nonneg_ae _ hint]
  · have hsub : Ioi (0 : ℝ) ⊆
        Function.support (fun y : ℝ => y ^ df * Real.exp (-(1 / 2) * y ^ 2)) ∩ Ioi 0 := by
      intro y hy
      refine ⟨?_, hy⟩
      simp only [Function.mem_support]
      exact (mul_pos (Real.rpow_pos_of_pos hy _) (Real.exp_pos _)).ne'
    refine lt_of_lt_of_le ?_ (measure_mono hsub)
    simp
  · refine (ae_restrict_iff' measurableSet_Ioi).mpr (Filter.Eventually.of_forall ?_)
    intro y hy
    exact (mul_pos (Real.rpow_pos_of_pos hy _) (Real.exp_pos _)).le

/-- The noncentral t density with 3 degrees of freedom: at the statistic 1 with
noncentrality 0 and at the statistic 0 with noncentrality 1 it takes different
values. -/
theorem noncentralTPDF_not_symmetric : noncentralTPDF 1 3 0 ≠ noncentralTPDF 0 3 1 := by
  have hI := noncentral_integral_pos 3 (by norm_num)
  have hG : 0 < Real.Gamma (3 / 2) := Real.Gamma_pos_of_pos (by norm_num)
  have hpi : 0 < Real.sqrt Real.pi := Real.sqrt_pos.mpr Real.pi_pos
  have h3 : (0 : ℝ) < 3 ^ ((3 : ℝ) / 2) := Real.rpow_pos_of_pos (by norm_num) _
  have h2 : (0 : ℝ) < 2 ^ (((3 : ℝ) - 1) / 2) := Real.rpow_pos_of_pos (by norm_num) _
  have e1 : ((1 : ℝ) ^ 2 + 3) ^ (((3 : ℝ) + 1) / 2) = 16 := by
    have : (((3 : ℝ) + 1) / 2) = ((2 : ℕ) : ℝ) := by norm_num
    rw [this, Real.rpow_natCast]
    norm_num
  have e2 : ((0 : ℝ) ^ 2 + 3) ^ (((3 : ℝ) + 1) / 2) = 9 := by
    have : (((3 : ℝ) + 1) / 2) = ((2 : ℕ) : ℝ) := by norm_num
    rw [this, Real.rpow_natCast]
    norm_num
  have hexp : Real.exp (-(1 / 2)) * 16 ≠ 9 := by
    have hlt : Real.exp (1 / 2) < 16 / 9 := by
      have h1 : Real.exp (1 / 2) ^ 2 = Real.exp 1 := by
        rw [← Real.exp_nat_mul]
        norm_num
      have h9 := Real.exp_one_lt_d9
      have hpos : 0 < Real.exp (1 / 2) := Real.exp_pos _
      nlinarith
    have hinv : Real.exp (-(1 / 2)) * Real.exp (1 / 2) = 1 := by
      rw [← Real.exp_add]
      simp
    intro h
    have hpos : 0 < Real.exp (-(1 / 2)) := Real.exp_pos _
    nlinarith
  unfold noncentralTPDF
  have s1 : (0 : ℝ) * 1 / Real.sqrt (1 ^ 2 + 3) = 0 := by simp
  have s2 : (1 : ℝ) * 0 / Real.sqrt (0 ^ 2 + 3) = 0 := by simp
  rw [s1, s2, e1, e2]
  have hx1 : -((3 : ℝ) * 0 ^ 2) / (2 * (1 ^ 2 + 3)) = 0 := by norm_num
  have hx2 : -((3 : ℝ) * 1 ^ 2) / (2 * (0 ^ 2 + 3)) = -(1 / 2) := by norm_num
  rw [hx1, hx2, Real.exp_zero]
  have hD : (0 : ℝ) < Real.sqrt Real.pi * Real.Gamma (3 / 2) * 2 ^ (((3 : ℝ) - 1) / 2) := by
    positivity
  generalize (3 : ℝ) ^ ((3 : ℝ) / 2) = A at h3 ⊢
  generalize Real.sqrt Real.pi * Real.Gamma (3 / 2) * 2 ^ (((3 : ℝ) - 1) / 2) = D at hD ⊢
  generalize (∫ y in Ioi (0 : ℝ), y ^ (3 : ℝ) * Real.exp (-(y - 0) ^ 2 / 2)) = I at hI ⊢
  generalize Real.exp (-(1 / 2)) = E at hexp ⊢
  intro h
  apply hexp
  have hne : A * I * D ≠ 0 := (mul_pos (mul_pos h3 hI) hD).ne'
  field_simp at h
  apply mul_left_cancel₀ hne
  linear_combination -h

/-- An interval of zero mass cannot be normalised: for `Normal_prior(mean = 0,
sd = 1, min = 1, max = 1)` the third branch divides by `auc = 0` and the built
func does not integrate to 1 over `[1, 1]`. -/
theorem zero_mass_interval_not_normalised :
    ∃ f, (Normal_prior exactLib Flt.pzero Flt.one Flt.one Flt.one).Function = some f ∧
      exactLib.Integrate f Flt.one Flt.one ≠ Flt.one := by
  have h1 : (Flt.eq (Flt.one : Flt ℝ) Flt.ninf && Flt.eq (Flt.one : Flt ℝ) Flt.pinf)
      = false := rfl
  have h2 : ((Flt.eq (Flt.one : Flt ℝ) Flt.pzero && Flt.eq (Flt.one : Flt ℝ) Flt.pinf)
      || (Flt.eq (Flt.one : Flt ℝ) Flt.ninf && Flt.eq (Flt.one : Flt ℝ) Flt.pzero))
      = false := rfl
  have hb : Flt.between (Flt.one : Flt ℝ) Flt.one = Icc 1 1 := by
    ext x
    simp only [Flt.between, Flt.one, Flt.fin_le_ofK, Flt.ofK_le_fin, decide_eq_true_eq,
      Set.mem_setOf_eq, Set.mem_Icc]
  refine ⟨fun x => (exactLib.Dnorm x Flt.pzero Flt.one * inrange x Flt.one Flt.one) *
    (Flt.one / exactLib.Integrate
      (fun x => exactLib.Dnorm x Flt.pzero Flt.one * inrange x Flt.one Flt.one)
      Flt.ninf Flt.pinf), by simp [Normal_prior, h1, h2], ?_⟩
  rw [show exactLib.Integrate = exactIntegrate from rfl]
  unfold exactIntegrate
  rw [hb, setIntegral_zero_measure _ (by simp)]
  intro h
  have := congrArg Flt.toK h
  rw [Flt.toK_ofK, Flt.toK_one] at this
  exact zero_ne_one this

/-- Where the builders do normalise: for a prior built by `Normal_prior`,
`Cauchy_prior` or `Student_t_prior`, at any location and scale, whose density
is a proper probability density `φ` with non-zero mass on `[min, max]`, with
the integrator the exact integral, the prior's func integrates to 1 over
`[min, max]`, where for the bounds of a half-line through zero the density is
symmetric about 0. -/
theorem prior_normalised (E : Lib ℝ) (hI : E.Integrate = exactIntegrate)
    (mean sd df min max : Flt ℝ) (B : Flt ℝ → Flt ℝ → Prior ℝ) (dens : Flt ℝ → Flt ℝ)
    (hB : (B = Normal_prior E mean sd ∧ dens = fun x => E.Dnorm x mean sd) ∨
      (B = Cauchy_prior E mean sd ∧ dens = fun x => E.Dcauchy x mean sd) ∨
      (B = Student_t_prior E mean sd df ∧
        dens = fun x => E.Scaled_shifted_t x mean sd df))
    (φ : ℝ → ℝ) (hφ : ∀ x : ℝ, dens (Flt.ofK x) = Flt.ofK (φ x))
    (hint : Integrable φ) (hone : ∫ x, φ x = 1)
    (hmass : ∫ x in Flt.between min max, φ x ≠ 0)
    (hsymm : ((Flt.eq min Flt.pzero && Flt.eq max Flt.pinf)
      || (Flt.eq min Flt.ninf && Flt.eq max Flt.pzero)) = true → ∀ x, φ (-x) = φ x) :
    ∃ f, (B min max).Function = some f ∧ E.Integrate f min max = Flt.one := by
  by_cases h1 : (Flt.eq min Flt.ninf && Flt.eq max Flt.pinf) = true
  · refine ⟨fun x => dens x, ?_, ?_⟩
    · rcases hB with ⟨rfl, rfl⟩ | ⟨rfl, rfl⟩ | ⟨rfl, rfl⟩
      · simp [Normal_prior, h1]
      · simp [Cauchy_prior, h1]
      · simp [Student_t_prior, h1]
    · have hmm : min = Flt.ninf ∧ max = Flt.pinf := by
        cases min <;> cases max <;> simp_all [Flt.eq, Flt.ninf, Flt.pinf]
      rw [hI]
      unfold exactIntegrate
      simp only [hφ, Flt.toK_ofK, hmm.1, hmm.2, Flt.between_ninf_pinf, Measure.restrict_univ,
        hone]
      exact Flt.ofK_one
  · by_cases h2 : ((Flt.eq min Flt.pzero && Flt.eq max Flt.pinf)
        || (Flt.eq min Flt.ninf && Flt.eq max Flt.pzero)) = true
    · refine ⟨fun x => (dens x * inrange x min max) * Flt.two, ?_, ?_⟩
      · rcases hB with ⟨rfl, rfl⟩ | ⟨rfl, rfl⟩ | ⟨rfl, rfl⟩
        · exact Normal_prior_half E _ _ _ _ h2
        · exact Cauchy_prior_half E _ _ _ _ h2
        · exact Student_t_prior_half E _ _ _ _ _ h2
      · rw [hI, exactIntegrate_masked dens φ hφ min max min max _ (le_refl _),
          half_line_mass φ hint hone (hsymm h2) min max h2, Flt.toK_two, ← Flt.ofK_one]
        norm_num
    · have h1f : (Flt.eq min Flt.ninf && Flt.eq max Flt.pinf) = false :=
        Bool.eq_false_iff.mpr h1
      have h2f : ((Flt.eq min Flt.pzero && Flt.eq max Flt.pinf)
          || (Flt.eq min Flt.ninf && Flt.eq max Flt.pzero)) = false :=
        Bool.eq_false_iff.mpr h2
      refine ⟨fun x => (dens x * inrange x min max) *
        (Flt.one / E.Integrate (fun x => dens x * inrange x min max) Flt.ninf Flt.pinf),
        ?_, ?_⟩
      · rcases hB with ⟨rfl, rfl⟩ | ⟨rfl, rfl⟩ | ⟨rfl, rfl⟩
        · simp [Normal_prior, h1f, h2f]
        · simp [Cauchy_prior, h1f, h2f]
        · simp [Student_t_prior, h1f, h2f]
      · rw [hI, exactIntegrate_masked_one dens φ hφ min max _ _
          (by rw [Flt.between_ninf_pinf]; exact Set.subset_univ _),
          exactIntegrate_masked dens φ hφ min max min max _ (le_refl _),
          Flt.one_div_ofK _ hmass, Flt.toK_ofK, mul_one_div_cancel hmass]
        exact Flt.ofK_one

/-- The normal density with mean 1 and standard deviation 1 truncated to
`[0, 1]` is normalised: the third branch computes `k = 1 / auc`. -/
theorem prior_normalised_example :
    ∃ f, (Normal_prior exactLib Flt.one Flt.one Flt.pzero Flt.one).Function = some f ∧
      exactLib.Integrate f Flt.pzero Flt.one = Flt.one :=
  prior_normalised exactLib rfl Flt.one Flt.one Flt.one Flt.pzero Flt.one
    (Normal_prior exactLib Flt.one Flt.one) (fun x => exactLib.Dnorm x Flt.one Flt.one)
    (Or.inl ⟨rfl, rfl⟩) (fun x => normalPDF x 1 1)
    (fun x => by
      have := lift3_ofK normalPDF x 1 1
      rwa [Flt.ofK_one] at this)
    (normalPDF_integrable 1 1) (normalPDF_integral 1 1 one_ne_zero)
    (by
      rw [Flt.between_zero_one]
      exact (normalPDF_mass_pos 1 1 one_ne_zero _ (by simp)).ne')
    (fun h => by simp [Flt.eq, Flt.pzero, Flt.one, Flt.pinf, Flt.ninf] at h)

/-! ## The claims -/

/-- C1: for a likelihood spec of a supported family with enough parameters, an
alternative prior spec of family cauchy, normal, beta, uniform or student_t
with enough parameters and a value `p`, `Bayesfactor(L, A, point(p))` returns
`(pp(data, alt).auc / data.function(p), nil)`, where `data` and `alt` are the
likelihood and the prior built from `L` and `A`. -/
theorem C1_point_null_ratio (E : Lib K) (L : LikelihoodDef K) (A : PriorDef K) (p : Flt K)
    (hL : L.Name ∈ likelihoodFamilies) (hLn : likelihoodArity L.Name ≤ L.Params.length)
    (hA : A.Name ∈ densityPriorFamilies) (hAn : priorArity A.Name ≤ A.Params.length) :
    ∃ data alt model f,
      Bayesfactor_data E L = some data ∧ data.function = some f ∧
      Bayesfactor_alt E A = some alt ∧ pp E data alt = some model ∧
      Bayesfactor E L A (pointSpec p) = some (model.auc / f p, none) := by
  obtain ⟨f, hf⟩ := Bayesfactor_data_shape E L hL hLn
  obtain ⟨g, hg⟩ := Bayesfactor_alt_shape E A hA hAn
  have hne : A.Name ≠ "point" := densityPriorFamilies_ne_point _ hA
  refine ⟨_, _, _, f, hf, rfl, hg, pp_density E f g L.Name A.Name _ hne, ?_⟩
  simp [Bayesfactor, hf, hg, Bayesfactor_null_point, pp_point, pp_density E f g _ _ _ hne]

/-- C1 at a normal likelihood and a Cauchy alternative of the executable
library. -/
theorem C1_point_null_ratio_witness :
    ∃ data alt model f,
      Bayesfactor_data exampleLib ⟨"normal", [Flt.ofK 1, Flt.ofK 2]⟩ = some data ∧
      data.function = some f ∧
      Bayesfactor_alt exampleLib ⟨"cauchy", [Flt.ofK 0, Flt.ofK 1, Flt.ninf, Flt.pinf]⟩
        = some alt ∧
      pp exampleLib data alt = some model ∧
      Bayesfactor exampleLib ⟨"normal", [Flt.ofK 1, Flt.ofK 2]⟩
          ⟨"cauchy", [Flt.ofK 0, Flt.ofK 1, Flt.ninf, Flt.pinf]⟩ (pointSpec (Flt.ofK 0))
        = some (model.auc / f (Flt.ofK 0), none) :=
  C1_point_null_ratio exampleLib ⟨"normal", [Flt.ofK 1, Flt.ofK 2]⟩
    ⟨"cauchy", [Flt.ofK 0, Flt.ofK 1, Flt.ninf, Flt.pinf]⟩ (Flt.ofK 0)
    (by decide) (by decide) (by decide) (by decide)

/-- C2, as stated, fails: float64 division rounds.  For the binomial likelihood
of 1 success in 1 trial, the beta(3, 4) prior and the uniform prior on
`[0, 1]`, with the executable library, the two marginal likelihoods are
`1859 / 262144` and `1 / 2`; `Bayesfactor(L, A, N)` returns `1859 / 131072`
and `Bayesfactor(L, N, A)` returns the float64 nearest to `131072 / 1859`,
whose float64 reciprocal is one unit in the last place above
`1859 / 131072`. -/
theorem C2_swap_not_inverse :
    ((Bayesfactor_data exampleLib ⟨"binomial", [Flt.ofK 1, Flt.ofK 1]⟩).bind fun data =>
      (Bayesfactor_alt exampleLib ⟨"beta", [Flt.ofK 3, Flt.ofK 4]⟩).bind fun alt =>
        (pp exampleLib data alt).map fun m => m.auc) = some (Flt.ofK (1859 / 262144)) ∧
    ((Bayesfactor_data exampleLib ⟨"binomial", [Flt.ofK 1, Flt.ofK 1]⟩).bind fun data =>
      (Bayesfactor_alt exampleLib ⟨"uniform", [Flt.ofK 0, Flt.ofK 1]⟩).bind fun alt =>
        (pp exampleLib data alt).map fun m => m.auc) = some (Flt.ofK (1 / 2)) ∧
    Bayesfactor exampleLib ⟨"binomial", [Flt.ofK 1, Flt.ofK 1]⟩
        ⟨"beta", [Flt.ofK 3, Flt.ofK 4]⟩ ⟨"uniform", [Flt.ofK 0, Flt.ofK 1]⟩
      = some (Flt.ofK (1859 / 131072), none) ∧
    Bayesfactor exampleLib ⟨"binomial", [Flt.ofK 1, Flt.ofK 1]⟩
        ⟨"uniform", [Flt.ofK 0, Flt.ofK 1]⟩ ⟨"beta", [Flt.ofK 3, Flt.ofK 4]⟩
      = some (Flt.ofK (4961469627140815 / 70368744177664), none) ∧
    Flt.one / Flt.ofK (4961469627140815 / 70368744177664 : ℚ)
      = Flt.ofK (8175968464142337 / 576460752303423488) ∧
    Flt.ofK (1859 / 131072 : ℚ) ≠ Flt.one / Flt.ofK (4961469627140815 / 70368744177664) := by
  decide!

/-- C2, amended: for a supported likelihood spec and two prior specs of the
families cauchy, normal, beta, uniform or student_t (with enough parameters), a
prior spec builds the same prior in the alternative role and in the null role;
with `a` and `b` the marginal likelihoods `pp` computes for the priors built
from `A` and `N`, `Bayesfactor(L, A, N)` returns `a / b` and
`Bayesfactor(L, N, A)` returns `b / a`; and when the arithmetic does not round,
`Bayesfactor(L, A, N)` is `1 / r` for the `r` that `Bayesfactor(L, N, A)`
returns. -/
theorem C2_swap_exchanges (E : Lib K) (L : LikelihoodDef K) (A N : PriorDef K)
    (hL : L.Name ∈ likelihoodFamilies) (hLn : likelihoodArity L.Name ≤ L.Params.length)
    (hA : A.Name ∈ densityPriorFamilies) (hAn : priorArity A.Name ≤ A.Params.length)
    (hN : N.Name ∈ densityPriorFamilies) (hNn : priorArity N.Name ≤ N.Params.length) :
    Bayesfactor_null E A = Bayesfactor_alt E A ∧ Bayesfactor_null E N = Bayesfactor_alt E N ∧
    ∃ data pa pn ma mn,
      Bayesfactor_data E L = some data ∧
      Bayesfactor_alt E A = some pa ∧ Bayesfactor_alt E N = some pn ∧
      pp E data pa = some ma ∧ pp E data pn = some mn ∧
      Bayesfactor E L A N = some (ma.auc / mn.auc, none) ∧
      Bayesfactor E L N A = some (mn.auc / ma.auc, none) ∧
      ((∀ k : K, Rounding.round k = Flt.ofK k) →
        Bayesfactor E L A N = some (Flt.one / (mn.auc / ma.auc), none)) := by
  obtain ⟨f, hf⟩ := Bayesfactor_data_shape E L hL hLn
  obtain ⟨g, hg⟩ := Bayesfactor_alt_shape E A hA hAn
  obtain ⟨k, hk⟩ := Bayesfactor_alt_shape E N hN hNn
  have hA0 := Bayesfactor_null_eq_alt E A hA
  have hN0 := Bayesfactor_null_eq_alt E N hN
  have hgne : A.Name ≠ "point" := densityPriorFamilies_ne_point _ hA
  have hkne : N.Name ≠ "point" := densityPriorFamilies_ne_point _ hN
  have hAN : Bayesfactor E L A N = some
      ((if L.Name = "binomial" then E.Integrate (fun x => f x * g x) Flt.pzero Flt.one
          else E.Integrate (fun x => f x * g x) Flt.ninf Flt.pinf) /
        (if L.Name = "binomial" then E.Integrate (fun x => f x * k x) Flt.pzero Flt.one
          else E.Integrate (fun x => f x * k x) Flt.ninf Flt.pinf), none) := by
    simp [Bayesfactor, hf, hg, hk, hN0, pp_density E f _ _ _ _ hgne,
      pp_density E f _ _ _ _ hkne]
  have hNA : Bayesfactor E L N A = some
      ((if L.Name = "binomial" then E.Integrate (fun x => f x * k x) Flt.pzero Flt.one
          else E.Integrate (fun x => f x * k x) Flt.ninf Flt.pinf) /
        (if L.Name = "binomial" then E.Integrate (fun x => f x * g x) Flt.pzero Flt.one
          else E.Integrate (fun x => f x * g x) Flt.ninf Flt.pinf), none) := by
    simp [Bayesfactor, hf, hg, hk, hA0, pp_density E f _ _ _ _ hgne,
      pp_density E f _ _ _ _ hkne]
  refine ⟨hA0, hN0, _, _, _, _, _, hf, hg, hk, pp_density E f g L.Name A.Name _ hgne,
    pp_density E f k L.Name N.Name _ hkne, hAN, hNA, ?_⟩
  intro hexact
  rw [hAN]
  exact congrArg (fun r => some (r, (none : GoError))) (Flt.div_eq_one_div_div hexact _ _)

/-- C2 amended, at a normal likelihood, a truncated Cauchy prior and a truncated
normal prior of the library over the reals, where the arithmetic is exact. -/
theorem C2_swap_exchanges_witness :
    ∃ r, Bayesfactor exactLib ⟨"normal", [Flt.ofK 1, Flt.ofK 2]⟩
          ⟨"normal", [Flt.ofK 0, Flt.ofK 1, Flt.ofK (-1), Flt.ofK 3]⟩
          ⟨"cauchy", [Flt.ofK 0, Flt.ofK 1, Flt.ofK 0, Flt.ofK 3]⟩ = some (r, none) ∧
      Bayesfactor exactLib ⟨"normal", [Flt.ofK 1, Flt.ofK 2]⟩
          ⟨"cauchy", [Flt.ofK 0, Flt.ofK 1, Flt.ofK 0, Flt.ofK 3]⟩
          ⟨"normal", [Flt.ofK 0, Flt.ofK 1, Flt.ofK (-1), Flt.ofK 3]⟩
        = some (Flt.one / r, none) := by
  obtain ⟨-, -, data, pa, pn, ma, mn, -, -, -, -, -, -, hNA, hinv⟩ :=
    C2_swap_exchanges exactLib ⟨"normal", [Flt.ofK 1, Flt.ofK 2]⟩
      ⟨"cauchy", [Flt.ofK 0, Flt.ofK 1, Flt.ofK 0, Flt.ofK 3]⟩
      ⟨"normal", [Flt.ofK 0, Flt.ofK 1, Flt.ofK (-1), Flt.ofK 3]⟩
      (by decide) (by decide) (by decide) (by decide) (by decide) (by decide)
  exact ⟨mn.auc / ma.auc, hNA, hinv (fun _ => rfl)⟩

/-- C3, as stated, fails: for the likelihood spec with family "bogus" and no
parameters the call panics (the nil likelihood func is called), it does not
return a non-nil error. -/
theorem C3_bogus_likelihood_no_error :
    Bayesfactor exampleLib ⟨"bogus", []⟩
        ⟨"cauchy", [Flt.ofK 0, Flt.ofK 1, Flt.ninf, Flt.pinf]⟩ (pointSpec (Flt.ofK 0)) = none ∧
    ¬ ∃ bf err, Bayesfactor exampleLib ⟨"bogus", []⟩
        ⟨"cauchy", [Flt.ofK 0, Flt.ofK 1, Flt.ninf, Flt.pinf]⟩ (pointSpec (Flt.ofK 0))
          = some (bf, some err) := by
  have h : Bayesfactor exampleLib ⟨"bogus", []⟩
      ⟨"cauchy", [Flt.ofK 0, Flt.ofK 1, Flt.ninf, Flt.pinf]⟩ (pointSpec (Flt.ofK 0)) = none :=
    rfl
  refine ⟨h, ?_⟩
  rintro ⟨bf, err, he⟩
  rw [h] at he
  cases he

/-- C3, amended: when the likelihood spec, the alternative prior spec or the
null prior spec names a family its switch has no case for, `Bayesfactor`
produces no ratio: the call panics on the nil func of the zero-valued
likelihood or prior.  No call returns a non-nil error: a call that returns,
returns `nil`. -/
theorem C3_unknown_family_panics (E : Lib K) (L : LikelihoodDef K) (A N : PriorDef K)
    (h : L.Name ∉ likelihoodFamilies ∨ A.Name ∉ densityPriorFamilies ∨
      N.Name ∉ nullPriorFamilies) :
    Bayesfactor E L A N = none ∧
    ∀ (L2 : LikelihoodDef K) (A2 N2 : PriorDef K) (bf : Flt K) (err : GoError),
      Bayesfactor E L2 A2 N2 = some (bf, err) → err = none := by
  refine ⟨?_, ?_⟩
  · rcases h with h | h | h
    · exact Bayesfactor_none_of_likelihood E L A N h
    · exact Bayesfactor_none_of_alt E L A N h
    · exact Bayesfactor_none_of_null E L A N h
  · intro L2 A2 N2 bf err he
    obtain ⟨_, _, _, am, nm, -, -, -, -, -, hr⟩ := Bayesfactor_eq_some E L2 A2 N2 _ he
    exact (Prod.mk.inj hr).2

/-- C3 amended, at a null prior spec of the unsupported family "gamma". -/
theorem C3_unknown_family_panics_witness :
    Bayesfactor exampleLib ⟨"normal", [Flt.ofK 1, Flt.ofK 2]⟩
        ⟨"cauchy", [Flt.ofK 0, Flt.ofK 1, Flt.ninf, Flt.pinf]⟩
        ⟨"gamma", [Flt.ofK 1, Flt.ofK 1]⟩ = none ∧
    ∀ (L2 : LikelihoodDef ℚ) (A2 N2 : PriorDef ℚ) (bf : Flt ℚ) (err : GoError),
      Bayesfactor exampleLib L2 A2 N2 = some (bf, err) → err = none :=
  C3_unknown_family_panics exampleLib ⟨"normal", [Flt.ofK 1, Flt.ofK 2]⟩
    ⟨"cauchy", [Flt.ofK 0, Flt.ofK 1, Flt.ninf, Flt.pinf]⟩ ⟨"gamma", [Flt.ofK 1, Flt.ofK 1]⟩
    (Or.inr (Or.inr (by decide)))

/-- C4 at `Normal_prior(mean = 1, sd = 1, min = 0, max = +Inf)`: with the normal
density and the exact integral, the prior the code builds integrates over
`[0, +Inf)` to a number greater than 1, not to 1.  The branch for the bounds of
a half-line through zero multiplies by the constant `k = 2.0`, which is
`1 / auc` only for a density symmetric about 0; the comment in the source says
"otherwise, integrate and normalize" and the branch after it computes
`k = 1 / auc`. -/
theorem C4_half_line_not_normalised :
    ∃ f m, (Normal_prior exactLib Flt.one Flt.one Flt.pzero Flt.pinf).Function = some f ∧
      exactLib.Integrate f Flt.pzero Flt.pinf = Flt.ofK m ∧ 1 < m ∧
      exactLib.Integrate f Flt.pzero Flt.pinf ≠ Flt.one := by
  have hhalf : ((Flt.eq (Flt.pzero : Flt ℝ) Flt.pzero && Flt.eq (Flt.pinf : Flt ℝ) Flt.pinf)
      || (Flt.eq (Flt.pzero : Flt ℝ) Flt.ninf && Flt.eq (Flt.pinf : Flt ℝ) Flt.pzero))
      = true := rfl
  have hφ : ∀ x : ℝ, (fun x => exactLib.Dnorm x Flt.one Flt.one) (Flt.ofK x) =
      Flt.ofK (normalPDF x 1 1) := by
    intro x
    have := lift3_ofK normalPDF x 1 1
    rwa [Flt.ofK_one] at this
  have hval : exactLib.Integrate
      (fun x => (exactLib.Dnorm x Flt.one Flt.one * inrange x Flt.pzero Flt.pinf) * Flt.two)
      Flt.pzero Flt.pinf = Flt.ofK ((∫ x in Ici (0 : ℝ), normalPDF x 1 1) * 2) := by
    have := exactIntegrate_masked (fun x => exactLib.Dnorm x Flt.one Flt.one)
      (fun x => normalPDF x 1 1) hφ Flt.pzero Flt.pinf Flt.pzero Flt.pinf Flt.two (le_refl _)
    rw [show (Flt.pzero : Flt ℝ) = Flt.zero false from rfl, Flt.between_zero_pinf,
      Flt.toK_two] at this
    exact this
  have hm : 1 < (∫ x in Ici (0 : ℝ), normalPDF x 1 1) * 2 := by
    have := normalPDF_one_mass
    linarith
  refine ⟨_, _, Normal_prior_half exactLib _ _ _ _ hhalf, hval, hm, ?_⟩
  rw [hval]
  intro h
  have := congrArg Flt.toK h
  rw [Flt.toK_ofK, Flt.toK_one] at this
  linarith

/-- C5: the switch of the alternative prior has no case for "point": for every
likelihood spec, every parameter list of the point prior and every null prior
spec, `Bayesfactor(L, point, N)` panics instead of returning
`L.evaluate(p) / L.evaluate(q)`. -/
theorem C5_point_alternative_panics (E : Lib K) (L : LikelihoodDef K) (ps : List (Flt K))
    (N : PriorDef K) :
    Bayesfactor_alt E ⟨"point", ps⟩ = some Prior.zeroValue ∧
    Bayesfactor E L ⟨"point", ps⟩ N = none :=
  have h : "point" ∉ densityPriorFamilies := by decide
  ⟨Bayesfactor_alt_unknown E ⟨"point", ps⟩ h, Bayesfactor_none_of_alt E L ⟨"point", ps⟩ N h⟩

/-- C6: for a likelihood with func `f` (of any family name) and the point prior
at `p`, `pp` returns the same predictive whatever integrator the library has:
its `auc` is `f(p)` and its product function is `x ↦ f(x) * prior(x)`. -/
theorem C6_point_prior_skips_integrator (E : Lib K)
    (I : (Flt K → Flt K) → Flt K → Flt K → Flt K) (f : Flt K → Flt K) (name : String)
    (p : Flt K) :
    ∃ g, (point_prior p).Function = some g ∧
      pp { E with Integrate := I } ⟨some f, name⟩ (point_prior p) =
        some { function := some (fun x => f x * g x), auc := f p,
               likelihood := some f, prior := some g } :=
  ⟨_, rfl, pp_point _ f name p⟩

/-- C7: with the integrator the exact integral, `Dcauchy` the Cauchy density and
`Sqrt` the square root, for every `d`, every number `df` with `df + 1 > 0` and
every noncentral-t density `Dt`, `Bayesfactor(noncentral_d(d, df),
cauchy(0, 1, -Inf, +Inf), point(0))` and `Bayesfactor(noncentral_t(d*sqrt(df+1),
df), cauchy(0, sqrt(df+1), -Inf, +Inf), point(0))` return the same ratio. -/
theorem C7_effect_size_agrees (E : Lib ℝ) (hI : E.Integrate = exactIntegrate)
    (hC : ∀ x s : ℝ, 0 < s → E.Dcauchy (Flt.ofK x) Flt.pzero (Flt.ofK s) =
      Flt.ofK (cauchyPDF x 0 s))
    (hS : ∀ y : ℝ, 0 < y → E.Sqrt (Flt.ofK y) = Flt.ofK (Real.sqrt y))
    (d : Flt ℝ) (df : ℝ) (hdf : 0 < df + 1) :
    ∃ r, Bayesfactor E ⟨"noncentral_d", [d, Flt.ofK df]⟩
          ⟨"cauchy", [Flt.pzero, Flt.one, Flt.ninf, Flt.pinf]⟩ (pointSpec Flt.pzero)
        = some (r, none) ∧
      Bayesfactor E
          ⟨"noncentral_t", [d * E.Sqrt (Flt.ofK df + Flt.one), Flt.ofK df]⟩
          ⟨"cauchy", [Flt.pzero, E.Sqrt (Flt.ofK df + Flt.one), Flt.ninf, Flt.pinf]⟩
          (pointSpec Flt.pzero)
        = some (r, none) := by
  have hc : 0 < Real.sqrt (df + 1) := Real.sqrt_pos.mpr hdf
  have hsq : E.Sqrt (Flt.ofK df + Flt.one) = Flt.ofK (Real.sqrt (df + 1)) := by
    rw [Flt.ofK_add_one, hS _ hdf]
  have hfull : (Flt.eq (Flt.ninf : Flt ℝ) Flt.ninf && Flt.eq (Flt.pinf : Flt ℝ) Flt.pinf)
      = true := rfl
  have hz : Flt.ofK (Real.sqrt (df + 1)) * Flt.pzero = Flt.pzero := by
    rw [← Flt.ofK_zero, Flt.ofK_mul_of_pos _ _ hc, mul_zero]
  have hint : exactIntegrate (fun x =>
        E.Dt (d * Flt.ofK (Real.sqrt (df + 1))) (Flt.ofK df)
          (Flt.ofK (Real.sqrt (df + 1)) * x) * E.Dcauchy x Flt.pzero Flt.one)
        Flt.ninf Flt.pinf =
      exactIntegrate (fun x =>
        E.Dt (d * Flt.ofK (Real.sqrt (df + 1))) (Flt.ofK df) x *
          E.Dcauchy x Flt.pzero (Flt.ofK (Real.sqrt (df + 1))))
        Flt.ninf Flt.pinf := by
    unfold exactIntegrate
    congr 1
    rw [Flt.between_ninf_pinf, Measure.restrict_univ]
    have h1 : ∀ x : ℝ, E.Dcauchy (Flt.ofK x) Flt.pzero Flt.one = Flt.ofK (cauchyPDF x 0 1) := by
      intro x
      rw [← Flt.ofK_one]
      exact hC x 1 one_pos
    simp only [Flt.toK_mul, Flt.ofK_mul_of_pos _ _ hc, h1, hC _ _ hc, Flt.toK_ofK]
    exact integral_cauchy_scale
      (fun y => Flt.toK (E.Dt (d * Flt.ofK (Real.sqrt (df + 1))) (Flt.ofK df) (Flt.ofK y)))
      _ hc
  have hL1 : Bayesfactor_data E ⟨"noncentral_d", [d, Flt.ofK df]⟩ =
      some ⟨some (Noncentral_d_likelihood E d (Flt.ofK df)), "noncentral_d"⟩ := rfl
  have hL2 : Bayesfactor_data E
      ⟨"noncentral_t", [d * E.Sqrt (Flt.ofK df + Flt.one), Flt.ofK df]⟩ =
      some ⟨some (Noncentral_t_likelihood E (d * E.Sqrt (Flt.ofK df + Flt.one)) (Flt.ofK df)),
        "noncentral_t"⟩ := rfl
  have hA1 : Bayesfactor_alt E ⟨"cauchy", [Flt.pzero, Flt.one, Flt.ninf, Flt.pinf]⟩ =
      some ⟨some (fun x => E.Dcauchy x Flt.pzero Flt.one), "cauchy", Flt.pzero⟩ := rfl
  have hA2 : Bayesfactor_alt E
      ⟨"cauchy", [Flt.pzero, E.Sqrt (Flt.ofK df + Flt.one), Flt.ninf, Flt.pinf]⟩ =
      some ⟨some (fun x => E.Dcauchy x Flt.pzero (E.Sqrt (Flt.ofK df + Flt.one))), "cauchy",
        Flt.pzero⟩ := rfl
  refine ⟨exactIntegrate (fun x =>
        E.Dt (d * Flt.ofK (Real.sqrt (df + 1))) (Flt.ofK df) x *
          E.Dcauchy x Flt.pzero (Flt.ofK (Real.sqrt (df + 1))))
        Flt.ninf Flt.pinf /
      E.Dt (d * Flt.ofK (Real.sqrt (df + 1))) (Flt.ofK df) Flt.pzero, ?_, ?_⟩
  · rw [Bayesfactor_point_null E _ _ _ _ _ _ _ _ hL1 hA1 (by decide)]
    simp only [Noncentral_d_likelihood, hsq, hz, hI, hint]
    simp
  · rw [Bayesfactor_point_null E _ _ _ _ _ _ _ _ hL2 hA2 (by decide)]
    simp only [Noncentral_t_likelihood, hsq, hI]
    simp

/-- C7 at the test's input `d = 2.03 / sqrt(80)`, `df = 79`. -/
theorem C7_effect_size_agrees_witness :
    ∃ r, Bayesfactor exactLib
          ⟨"noncentral_d", [Flt.ofK ((203 / 100) / Real.sqrt 80), Flt.ofK 79]⟩
          ⟨"cauchy", [Flt.pzero, Flt.one, Flt.ninf, Flt.pinf]⟩ (pointSpec Flt.pzero)
        = some (r, none) ∧
      Bayesfactor exactLib
          ⟨"noncentral_t", [Flt.ofK ((203 / 100) / Real.sqrt 80) *
            exactLib.Sqrt (Flt.ofK 79 + Flt.one), Flt.ofK 79]⟩
          ⟨"cauchy", [Flt.pzero, exactLib.Sqrt (Flt.ofK 79 + Flt.one), Flt.ninf, Flt.pinf]⟩
          (pointSpec Flt.pzero)
        = some (r, none) :=
  C7_effect_size_agrees exactLib rfl
    (fun x s _ => by
      have := lift3_ofK cauchyPDF x 0 s
      rwa [Flt.ofK_zero] at this)
    liftSqrt_ofK (Flt.ofK ((203 / 100) / Real.sqrt 80)) 79 (by norm_num)

/-- C8, as stated, fails: with the noncentral t density, `d = 1/2`, `df = 3` and
`x = 0`, the noncentral_d likelihood is the density at the statistic 1 with
noncentrality 0, not the density at the statistic 0 with noncentrality 1. -/
theorem C8_arguments_not_swapped :
    Noncentral_d_likelihood exactLib (Flt.ofK (1 / 2)) (Flt.ofK 3) Flt.pzero ≠
      Noncentral_t_likelihood exactLib
        (exactLib.Sqrt (Flt.ofK 3 + Flt.one) * Flt.pzero) (Flt.ofK 3)
        (Flt.ofK (1 / 2) * exactLib.Sqrt (Flt.ofK 3 + Flt.one)) := by
  have hS : exactLib.Sqrt (Flt.ofK 3 + Flt.one) = Flt.ofK 2 := by
    have h4 : Real.sqrt (3 + 1) = 2 := by
      rw [show (3 + 1 : ℝ) = 2 ^ 2 by norm_num, Real.sqrt_sq (by norm_num)]
    rw [Flt.ofK_add_one, show exactLib.Sqrt = liftSqrt Real.sqrt from rfl,
      liftSqrt_ofK _ (by norm_num), h4]
  have h1 : Flt.ofK (1 / 2 : ℝ) * Flt.ofK 2 = Flt.ofK 1 := by
    rw [Flt.ofK_mul_of_pos _ _ (by norm_num)]
    norm_num
  have h2 : Flt.ofK (2 : ℝ) * Flt.pzero = Flt.pzero := by
    rw [← Flt.ofK_zero, Flt.ofK_mul_of_pos _ _ (by norm_num), mul_zero]
  have hl : Noncentral_d_likelihood exactLib (Flt.ofK (1 / 2)) (Flt.ofK 3) Flt.pzero =
      Flt.ofK (noncentralTPDF 1 3 0) := by
    unfold Noncentral_d_likelihood
    rw [hS, h1, h2, ← Flt.ofK_zero]
    exact lift3_ofK noncentralTPDF 1 3 0
  have hr : Noncentral_t_likelihood exactLib
      (exactLib.Sqrt (Flt.ofK 3 + Flt.one) * Flt.pzero) (Flt.ofK 3)
      (Flt.ofK (1 / 2) * exactLib.Sqrt (Flt.ofK 3 + Flt.one)) =
      Flt.ofK (noncentralTPDF 0 3 1) := by
    unfold Noncentral_t_likelihood
    rw [hS, h1, h2, ← Flt.ofK_zero]
    exact lift3_ofK noncentralTPDF 0 3 1
  rw [hl, hr]
  intro h
  exact noncentralTPDF_not_symmetric (Flt.ofK_injective _ _ h)

/-- C8, amended: the noncentral_d likelihood's `evaluate(x)` is the
noncentral-t density at the observed statistic `d*sqrt(df+1)` with
noncentrality `sqrt(df+1)*x`, in the argument convention of the noncentral_t
likelihood (statistic first, noncentrality last). -/
theorem C8_noncentral_d_is_noncentral_t (E : Lib K) (d df x : Flt K) :
    Noncentral_d_likelihood E d df x =
      Noncentral_t_likelihood E (d * E.Sqrt (df + Flt.one)) df (E.Sqrt (df + Flt.one) * x) ∧
    ∀ t ncp, Noncentral_t_likelihood E t df ncp = E.Dt t df ncp :=
  ⟨rfl, fun _ _ => rfl⟩

/-- C9: for a likelihood with func `f` and a prior with func `g` whose name is
not "point", `pp` returns the predictive whose `auc` is the integral of
`x ↦ f(x) * g(x)` over `[0, 1]` when the likelihood's name is "binomial" and
over `(-Inf, +Inf)` for every other name, whatever the prior's name is. -/
theorem C9_integration_domain (E : Lib K) (f g : Flt K → Flt K) (lname pname : String)
    (pt : Flt K) (hp : pname ≠ "point") :
    ∃ model, pp E ⟨some f, lname⟩ ⟨some g, pname, pt⟩ = some model ∧
      model.function = some (fun x => f x * g x) ∧
      (lname = "binomial" →
        model.auc = E.Integrate (fun x => f x * g x) Flt.pzero Flt.one) ∧
      (lname ≠ "binomial" →
        model.auc = E.Integrate (fun x => f x * g x) Flt.ninf Flt.pinf) := by
  refine ⟨_, pp_density E f g lname pname pt hp, rfl, ?_, ?_⟩
  · intro h
    simp [h]
  · intro h
    simp [h]

/-- C9 at the binomial likelihood and a beta prior of the executable library. -/
theorem C9_integration_domain_witness :
    ∃ model, pp exampleLib
        ⟨some (Binomial_likelihood exampleLib (Flt.ofK 8) (Flt.ofK 11)), "binomial"⟩
        ⟨some (fun x => exampleLib.Dbeta x (Flt.ofK 2) (Flt.ofK 1)), "beta", Flt.pzero⟩
          = some model ∧
      model.function = some (fun x =>
        Binomial_likelihood exampleLib (Flt.ofK 8) (Flt.ofK 11) x *
          exampleLib.Dbeta x (Flt.ofK 2) (Flt.ofK 1)) ∧
      ("binomial" = "binomial" →
        model.auc = exampleLib.Integrate (fun x =>
          Binomial_likelihood exampleLib (Flt.ofK 8) (Flt.ofK 11) x *
            exampleLib.Dbeta x (Flt.ofK 2) (Flt.ofK 1)) Flt.pzero Flt.one) ∧
      ("binomial" ≠ "binomial" →
        model.auc = exampleLib.Integrate (fun x =>
          Binomial_likelihood exampleLib (Flt.ofK 8) (Flt.ofK 11) x *
            exampleLib.Dbeta x (Flt.ofK 2) (Flt.ofK 1)) Flt.ninf Flt.pinf) :=
  C9_integration_domain exampleLib _ _ "binomial" "beta" Flt.pzero (by decide)

/-- C10: for `Normal_prior`, `Cauchy_prior` and `Student_t_prior` at location 0
whose density is a proper probability density symmetric about 0, with the
integrator the exact integral and the truncation `(0, +Inf)` or `(-Inf, 0)`:
the constant `k = 2.0` is `1 / auc` for `auc` the integral over `(-Inf, +Inf)`
of the masked density, the built func is the one the third branch builds, and
it integrates to 1 over `[min, max]`. -/
theorem C10_half_line_shortcut (E : Lib ℝ) (hI : E.Integrate = exactIntegrate)
    (sd df min max : Flt ℝ) (B : Flt ℝ → Flt ℝ → Prior ℝ) (dens : Flt ℝ → Flt ℝ)
    (hB : (B = Normal_prior E Flt.pzero sd ∧ dens = fun x => E.Dnorm x Flt.pzero sd) ∨
      (B = Cauchy_prior E Flt.pzero sd ∧ dens = fun x => E.Dcauchy x Flt.pzero sd) ∨
      (B = Student_t_prior E Flt.pzero sd df ∧
        dens = fun x => E.Scaled_shifted_t x Flt.pzero sd df))
    (φ : ℝ → ℝ) (hφ : ∀ x : ℝ, dens (Flt.ofK x) = Flt.ofK (φ x))
    (hint : Integrable φ) (hone : ∫ x, φ x = 1) (hsymm : ∀ x, φ (-x) = φ x)
    (hhalf : ((Flt.eq min Flt.pzero && Flt.eq max Flt.pinf)
      || (Flt.eq min Flt.ninf && Flt.eq max Flt.pzero)) = true) :
    ∃ auc, E.Integrate (fun x => dens x * inrange x min max) Flt.ninf Flt.pinf = auc ∧
      Flt.two = Flt.one / auc ∧
      (B min max).Function = some (fun x => (dens x * inrange x min max) * (Flt.one / auc)) ∧
      E.Integrate (fun x => (dens x * inrange x min max) * (Flt.one / auc)) min max
        = Flt.one := by
  have hmass := half_line_mass φ hint hone hsymm min max hhalf
  have hauc : E.Integrate (fun x => dens x * inrange x min max) Flt.ninf Flt.pinf =
      Flt.ofK (1 / 2 : ℝ) := by
    rw [hI, exactIntegrate_masked_one dens φ hφ min max _ _
      (by rw [Flt.between_ninf_pinf]; exact Set.subset_univ _), hmass]
  refine ⟨_, hauc, Flt.one_div_half.symm, ?_, ?_⟩
  · rw [Flt.one_div_half]
    rcases hB with ⟨rfl, rfl⟩ | ⟨rfl, rfl⟩ | ⟨rfl, rfl⟩
    · exact Normal_prior_half E _ _ _ _ hhalf
    · exact Cauchy_prior_half E _ _ _ _ hhalf
    · exact Student_t_prior_half E _ _ _ _ _ hhalf
  · rw [hI, exactIntegrate_masked dens φ hφ min max min max _ (le_refl _), hmass,
      Flt.one_div_half, Flt.toK_two, ← Flt.ofK_one]
    norm_num

/-- C10 at the standard normal density truncated to `(0, +Inf)`. -/
theorem C10_half_line_shortcut_witness :
    ∃ auc, exactLib.Integrate
        (fun x => exactLib.Dnorm x Flt.pzero Flt.one * inrange x Flt.pzero Flt.pinf)
        Flt.ninf Flt.pinf = auc ∧
      Flt.two = Flt.one / auc ∧
      (Normal_prior exactLib Flt.pzero Flt.one Flt.pzero Flt.pinf).Function =
        some (fun x => (exactLib.Dnorm x Flt.pzero Flt.one * inrange x Flt.pzero Flt.pinf) *
          (Flt.one / auc)) ∧
      exactLib.Integrate
        (fun x => (exactLib.Dnorm x Flt.pzero Flt.one * inrange x Flt.pzero Flt.pinf) *
          (Flt.one / auc)) Flt.pzero Flt.pinf = Flt.one :=
  C10_half_line_shortcut exactLib rfl Flt.one Flt.one Flt.pzero Flt.pinf
    (Normal_prior exactLib Flt.pzero Flt.one) (fun x => exactLib.Dnorm x Flt.pzero Flt.one)
    (Or.inl ⟨rfl, rfl⟩) (fun x => normalPDF x 0 1)
    (fun x => by
      have := lift3_ofK normalPDF x 0 1
      rwa [Flt.ofK_one, show Flt.ofK (0 : ℝ) = Flt.pzero from by simp [Flt.ofK, Flt.pzero]]
        at this)
    (normalPDF_integrable 0 1) (normalPDF_integral 0 1 one_ne_zero) (normalPDF_symm 1) rfl

end GoBayesfactor
